import Mathlib

/-!
Service.c of the clock terminal.

A shallow embedding of `Service/Src/Service.c`: the access guard
(`Check_LoginInfo` and its helpers), the alarm engine (`SetAlarm`, `CalcAlarm`,
`CompTime`) and the calendar codec (`ReadDateTime_FromPC`, `Calculate_Calender`,
`FindDay`, `Check_Calender`).

Conventions of the embedding.

* A `uint8_t` is a `Nat`; where C narrows a wider value into a `uint8_t`
  (a `uint16_t` from the UART, an `int` expression) the narrowing is written
  `% 256`.  A `uint8_t` array is a `List Nat`, read with `getD _ 0` and written
  with `List.set`.
* The program state is a `World`: the global buffers of the file, the words the
  operator will still type on the UART (`rx`), and the list of buffers handed to
  `SPI_Transmit_IT` so far (`spi`), each recorded with the contents it had at the
  call.
* `UART_u16Receive` blocks until a word arrives.  A function that reads from the
  line returns a `Run`: `done` with its result, or `blocked` with the state in
  which it waits once `rx` is used up.
* Text sent to the terminal (prompts, echoes, clear-screen sequences) and the
  delays change no variable of the program and are left out.  The static buffers
  of `ID_Reception`, `Pass_Reception` and `InvertPass` are written in full before
  they are read, so they are values rather than fields of the state.
-/

namespace Service

/-! ## Constants and types of the headers -/

/-- Macros of `Service.h` and `Service_Private.h` that `Service.c` uses and whose
values are given in neither the sources nor the specification. -/
structure Macros where
  RED_LED_CODE : Nat
  GREEN_LED_CODE : Nat
  ALARMCODE : Nat
  DISPLAY_CODE : Nat
  CALENDER_FORMAT : Nat
  FIRST_LETTER_OF_DAY : Nat
  SECOND_LETTER_OF_DAY : Nat
  THIRD_LETTER_OF_DAY : Nat
  MAX_DATE : Nat
  MAX_MONTH : Nat
  MAX_YEAR : Nat

/-- Modelled from the spec: the macro `NUM_OF_ID_PASS_DIGITS` is not in the
sources; the id and the password are "exactly 4 elements". -/
def NUM_OF_ID_PASS_DIGITS : Nat := 4

/-- Modelled from the spec: the macro `ZERO_ASCII` is not in the sources; digit
fields are decoded by `(byte0-'0')*10 + (byte1-'0')`, and `'0'` is 48. -/
def ZERO_ASCII : Nat := 48

/-- Modelled from the spec: the macro `MAX_HOURS` is not in the sources; the
calendar check enforces `hour ≤ 23`. -/
def MAX_HOURS : Nat := 23

/-- Modelled from the spec: the macro `MAX_MINUTES` is not in the sources; the
calendar check enforces `minute ≤ 59`. -/
def MAX_MINUTES : Nat := 59

/-- Modelled from the spec: the macro `MAX_SECONDS` is not in the sources; the
calendar check enforces `second ≤ 59`. -/
def MAX_SECONDS : Nat := 59

/-- Modelled from the spec: the enumeration `ID_PASS_EQUALITY_t` is declared in a
header that is not in the sources; `Service.c` uses these two constants. -/
inductive ID_PASS_EQUALITY_t where
  | ID_EQUAL_INVERTED_PASS
  | ID_NOEQUAL_INVERTED_PASS
  deriving DecidableEq, Repr

/-- Modelled from the spec: the enumeration `Equality_t` is declared in a header
that is not in the sources; `CompTime` uses these two constants. -/
inductive Equality_t where
  | Equal
  | NotEqual
  deriving DecidableEq, Repr

/-- Modelled from the spec: the enumeration `Error_State_t` of `ErrTypes.h` is not
in the sources; the calendar functions use these two constants. -/
inductive Error_State_t where
  | OK
  | NOK
  deriving DecidableEq, Repr

/-- Modelled from the spec: the type `DS1307_DAYS_t` and the macro `WRONG_DAY` are
not in the sources; the weekday is one of the seven known names or the dedicated
"invalid weekday" value. -/
inductive DS1307_DAYS_t where
  | DS1307_SATURDAY
  | DS1307_SUNDAY
  | DS1307_MONDAY
  | DS1307_TUESDAY
  | DS1307_WEDNESDAY
  | DS1307_THURSDAY
  | DS1307_FRIDAY
  | WRONG_DAY
  deriving DecidableEq, Repr

/-- Modelled from the spec: the structure `DS1307_Config_t` of
`DS1307_Interface.h` is not in the sources; a DateTime is
`{year, month, date, hour, minute, second, weekday}`, the numeric fields being
bytes (`Reading_Time` copies each into a `uint8_t`). -/
structure DS1307_Config_t where
  Seconds : Nat
  Minutes : Nat
  Hours : Nat
  Day : DS1307_DAYS_t
  Month : Nat
  Year : Nat
  Date : Nat
  deriving DecidableEq, Repr

/-- The completion callbacks that `Service.c` passes to `SPI_Transmit_IT`. -/
inductive Callback where
  | SPI_CallBackFunc
  | SPI_CALL_BACK
  | SPI1_ISR
  deriving DecidableEq, Repr

/-- One call of `SPI_Transmit_IT`: the bytes of the buffer at the call and the
completion callback. -/
structure Transmission where
  data : List Nat
  callback : Callback
  deriving DecidableEq, Repr

/-! ## Program state -/

/-- The global variables of `Service.c` together with the two channels: `rx` holds
the words the UART will still deliver, `spi` the transmissions started so far
(oldest first). -/
structure World where
  rx : List Nat
  spi : List Transmission
  ReadingArr : List Nat
  AlarmTime : List (List Nat)
  AlarmName : List Nat
  AlarmNameCounter : Nat
  Date_Time_RTC : DS1307_Config_t
  deriving DecidableEq, Repr

/-- Result of a function that may wait on the UART. -/
inductive Run (α : Type) where
  | done (a : α) (w : World)
  | blocked (w : World)
  deriving DecidableEq, Repr

/-- The state in which a run stopped, finished or waiting. -/
def Run.world {α : Type} : Run α → World
  | .done _ w => w
  | .blocked w => w

/-- The branch of the final `if` of `Check_LoginInfo` that ran: `Locked` when the
tries are used up (red frame), `Granted` otherwise (green frame). -/
inductive GuardState where
  | Granted
  | Locked
  deriving DecidableEq, Repr

/-! ## Drivers -/

/-- Modelled from the spec: the UART driver is not in the sources; the line
channel delivers the operator's words one at a time and a read waits when none
is pending. -/
def UART_u16Receive (w : World) : Run Nat :=
  match w.rx with
  | [] => .blocked w
  | x :: rest => .done x { w with rx := rest }

/-- Modelled from the spec: the SPI driver is not in the sources; the link
"begins an asynchronous send of N bytes" of the buffer and later invokes the
callback.  The call is recorded with the `Size` bytes the buffer holds. -/
def SPI_Transmit_IT (w : World) (Data : List Nat) (Size : Nat) (cb : Callback) : World :=
  { w with spi := w.spi ++ [⟨Data.take Size, cb⟩] }

/-- The loop `for (c = 0; c < n; c++) { Arr[c] = UART_u16Receive(UART_CONFIG); ... }`
shared by `ID_Reception`, `Pass_Reception`, `CalcAlarm` and
`ReadDateTime_FromPC`; the first argument is the number of iterations left. -/
def receiveLoop (n : Nat) : Nat → Nat → List Nat → World → Run (List Nat)
  | 0, _, Arr, w => .done Arr w
  | fuel + 1, c, Arr, w =>
    if c < n then
      match UART_u16Receive w with
      | .blocked w1 => .blocked w1
      | .done x w1 => receiveLoop n fuel (c + 1) (Arr.set c (x % 256)) w1
    else .done Arr w

/-! ## Access guard -/

/-- `InvertPass`: the loop writing `InvertedArr[c] = Arr[ArrSize - c - 1]`. -/
def InvertPass.loop (Arr : List Nat) (ArrSize : Nat) : Nat → Nat → List Nat → List Nat
  | 0, _, InvertedArr => InvertedArr
  | fuel + 1, c, InvertedArr =>
    if c < ArrSize then
      InvertPass.loop Arr ArrSize fuel (c + 1) (InvertedArr.set c (Arr.getD (ArrSize - c - 1) 0))
    else InvertedArr

/-- `InvertPass(Arr, ArrSize)`: the static `InvertedArr` after the loop. -/
def InvertPass (Arr : List Nat) (ArrSize : Nat) : List Nat :=
  InvertPass.loop Arr ArrSize ArrSize 0 (List.replicate NUM_OF_ID_PASS_DIGITS 0)

/-- `ID_Equal_InvertedPass`: the comparison loop, with its `break` on the first
unequal digit. -/
def ID_Equal_InvertedPass.loop (ID InvertedPass : List Nat) (Size : Nat) :
    Nat → Nat → ID_PASS_EQUALITY_t → ID_PASS_EQUALITY_t
  | 0, _, rel => rel
  | fuel + 1, c, rel =>
    if c < Size then
      if ID.getD c 0 = InvertedPass.getD c 0 then
        ID_Equal_InvertedPass.loop ID InvertedPass Size fuel (c + 1) .ID_EQUAL_INVERTED_PASS
      else .ID_NOEQUAL_INVERTED_PASS
    else rel

/-- `ID_Equal_InvertedPass(ID, Pass, Size)`. -/
def ID_Equal_InvertedPass (ID Pass : List Nat) (Size : Nat) : ID_PASS_EQUALITY_t :=
  ID_Equal_InvertedPass.loop ID (InvertPass Pass Size) Size Size 0 .ID_NOEQUAL_INVERTED_PASS

/-- `ID_Reception`: four words from the line, each narrowed to a byte. -/
def ID_Reception (w : World) : Run (List Nat) :=
  receiveLoop NUM_OF_ID_PASS_DIGITS NUM_OF_ID_PASS_DIGITS 0
    (List.replicate NUM_OF_ID_PASS_DIGITS 0) w

/-- `Pass_Reception`: four words from the line, each narrowed to a byte. -/
def Pass_Reception (w : World) : Run (List Nat) :=
  receiveLoop NUM_OF_ID_PASS_DIGITS NUM_OF_ID_PASS_DIGITS 0
    (List.replicate NUM_OF_ID_PASS_DIGITS 0) w

/-- `TryAgain(ID_Ptr, Pass_Ptr)`: both pointers are overwritten by the freshly
received buffers before they are used. -/
def TryAgain (_ID_Ptr _Pass_Ptr : List Nat) (w : World) : Run ID_PASS_EQUALITY_t :=
  match ID_Reception w with
  | .blocked w1 => .blocked w1
  | .done ID_Ptr w1 =>
    match Pass_Reception w1 with
    | .blocked w2 => .blocked w2
    | .done Pass_Ptr w2 =>
      .done (ID_Equal_InvertedPass ID_Ptr Pass_Ptr NUM_OF_ID_PASS_DIGITS) w2

/-- `SendGreenSignal`. -/
def SendGreenSignal (m : Macros) (w : World) : World :=
  let w1 := { w with ReadingArr := w.ReadingArr.set 0 (m.GREEN_LED_CODE % 256) }
  SPI_Transmit_IT w1 w1.ReadingArr 30 .SPI_CALL_BACK

/-- The `while (TriesNumber > 0)` loop of `Check_LoginInfo`, by recursion on
`TriesNumber`; the result is the value of `TriesNumber` when the loop is left. -/
def Check_LoginInfo.loop (ID_Ptr Pass_Ptr : List Nat) :
    Nat → ID_PASS_EQUALITY_t → World → Run Nat
  | 0, _, w => .done 0 w
  | T + 1, .ID_NOEQUAL_INVERTED_PASS, w =>
    if T = 0 then .done T w
    else
      match TryAgain ID_Ptr Pass_Ptr w with
      | .blocked w1 => .blocked w1
      | .done rel w1 => Check_LoginInfo.loop ID_Ptr Pass_Ptr T rel w1
  | T + 1, .ID_EQUAL_INVERTED_PASS, w => .done (T + 1) w

/-- `Check_LoginInfo(ID_Ptr, Pass_Ptr, TriesNumber)`. -/
def Check_LoginInfo (m : Macros) (ID_Ptr Pass_Ptr : List Nat) (TriesNumber : Nat)
    (w : World) : Run GuardState :=
  let DATA_SENT_viaSPI := (m.RED_LED_CODE % 256) :: List.replicate 29 0
  let ID_PASS_Relation := ID_Equal_InvertedPass ID_Ptr Pass_Ptr NUM_OF_ID_PASS_DIGITS
  match Check_LoginInfo.loop ID_Ptr Pass_Ptr TriesNumber ID_PASS_Relation w with
  | .blocked w1 => .blocked w1
  | .done T w1 =>
    if T = 0 then
      .done .Locked (SPI_Transmit_IT w1 DATA_SENT_viaSPI 30 .SPI_CallBackFunc)
    else
      .done .Granted (SendGreenSignal m w1)

/-! ## Alarm engine -/

/-- The entry `AlarmTime[i][j]` of a two-dimensional byte array. -/
def cell (t : List (List Nat)) (i j : Nat) : Nat :=
  (t.getD i []).getD j 0

/-- The assignment `AlarmTime[i][j] = v`. -/
def setCell (t : List (List Nat)) (i j v : Nat) : List (List Nat) :=
  t.set i ((t.getD i []).set j v)

/-- The expression `(a - z) * 10 + (b - z)` on two bytes, evaluated in `int`
as C does and narrowed to the `uint8_t` it is stored in. -/
def twoDigits (z a b : Nat) : Nat :=
  ((((a : Int) - (z : Int)) * 10 + ((b : Int) - (z : Int))) % 256).toNat

/-- `CalcAlarm(AlarmNumber)`: eight words from the line, then the three stores
into row `AlarmNumber - 48` (the callers pass `'0'..'4'`). -/
def CalcAlarm (AlarmNumber : Nat) (w : World) : Run Unit :=
  match receiveLoop 8 8 0 (List.replicate 8 0) w with
  | .blocked w1 => .blocked w1
  | .done RecTemp w1 =>
    let t0 := setCell w1.AlarmTime (AlarmNumber - 48) 0
      (twoDigits 48 (RecTemp.getD 0 0) (RecTemp.getD 1 0))
    let t1 := setCell t0 (AlarmNumber - 48) 1
      (twoDigits 48 (RecTemp.getD 3 0) (RecTemp.getD 4 0))
    let t2 := setCell t1 (AlarmNumber - 48) 2
      (twoDigits 48 (RecTemp.getD 6 0) (RecTemp.getD 7 0))
    .done () { w1 with AlarmTime := t2 }

/-- The inner loop of `CompTime` over the three fields of row `Counter1`, with
its `break` on the first unequal field. -/
def CompTime.inner (AlarmTime : List (List Nat)) (Counter1 : Nat) (CurrentTime : List Nat) :
    Nat → Nat → Equality_t → Equality_t
  | 0, _, EqualityCheck => EqualityCheck
  | fuel + 1, Counter2, EqualityCheck =>
    if Counter2 < 3 then
      if cell AlarmTime Counter1 Counter2 ≠ CurrentTime.getD Counter2 0 then .NotEqual
      else CompTime.inner AlarmTime Counter1 CurrentTime fuel (Counter2 + 1) .Equal
    else EqualityCheck

/-- The loop of `CompTime` over the five rows.  `Counter1` is the loop counter;
the store `AlarmName[1] = ++Counter1` increments it inside the body, before the
increment of the `for` statement. -/
def CompTime.outer (m : Macros) (CurrentTime : List Nat) :
    Nat → Nat → Equality_t → World → World
  | 0, _, _, w => w
  | fuel + 1, Counter1, EqualityCheck, w =>
    if Counter1 < 5 then
      if cell w.AlarmTime Counter1 0 ≠ 0xFF then
        let EqualityCheck1 := CompTime.inner w.AlarmTime Counter1 CurrentTime 3 0 EqualityCheck
        if EqualityCheck1 = .Equal then
          let w1 := { w with AlarmName := w.AlarmName.set 0 (m.ALARMCODE % 256) }
          let Counter1a := Counter1 + 1
          let w2 := { w1 with AlarmName := w1.AlarmName.set 1 Counter1a }
          let w3 := SPI_Transmit_IT w2 w2.AlarmName 30 .SPI1_ISR
          CompTime.outer m CurrentTime fuel (Counter1a + 1) EqualityCheck1 w3
        else CompTime.outer m CurrentTime fuel (Counter1 + 1) EqualityCheck1 w
      else CompTime.outer m CurrentTime fuel (Counter1 + 1) EqualityCheck w
    else w

/-- `CompTime()`; the snapshot returned by `DS1307_ReadDateTime` is the argument
`RecievedTime`. -/
def CompTime (m : Macros) (RecievedTime : DS1307_Config_t) (w : World) : World :=
  let CurrentTime := [RecievedTime.Hours, RecievedTime.Minutes, RecievedTime.Seconds]
  CompTime.outer m CurrentTime 5 0 .NotEqual w

/-- The label loop of `SetAlarm`:
`for (AlarmNameCounter = 2; AlarmNameCounter < 30; AlarmNameCounter++)`, left
early when the byte just stored is 13 (Enter). -/
def SetAlarm.nameLoop : Nat → World → Run Unit
  | 0, w => .done () w
  | fuel + 1, w =>
    if w.AlarmNameCounter < 30 then
      match UART_u16Receive w with
      | .blocked w1 => .blocked w1
      | .done x w1 =>
        let w2 := { w1 with AlarmName := w1.AlarmName.set w1.AlarmNameCounter (x % 256) }
        if w2.AlarmName.getD w2.AlarmNameCounter 0 = 13 then .done () w2
        else SetAlarm.nameLoop fuel { w2 with AlarmNameCounter := w2.AlarmNameCounter + 1 }
    else .done () w

/-- `SetAlarm()` with a bound on the depth of its self-call.  Every call takes at
least one word from the line before it calls itself, so the bound
`rx.length + 1` used by `SetAlarm` is never reached. -/
def SetAlarm.go : Nat → World → Run Unit
  | 0, w => .blocked w
  | fuel + 1, w =>
    match UART_u16Receive w with
    | .blocked w1 => .blocked w1
    | .done x w1 =>
      let ChooseNum := x % 256
      match SetAlarm.nameLoop 28 { w1 with AlarmNameCounter := 2 } with
      | .blocked w2 => .blocked w2
      | .done _ w2 =>
        if ChooseNum > 48 ∧ ChooseNum < 54 then CalcAlarm (ChooseNum - 1) w2
        else SetAlarm.go fuel w2

/-- `SetAlarm()`. -/
def SetAlarm (w : World) : Run Unit :=
  SetAlarm.go (w.rx.length + 1) w

/-! ## Calendar codec -/

/-- `FindDay(Calender)`.  The letters are compared with their ASCII codes:
`S` 83, `A` 65, `T` 84, `U` 85, `N` 78, `M` 77, `O` 79, `E` 69, `W` 87, `D` 68,
`H` 72, `F` 70, `R` 82, `I` 73, the lower-case letter being 32 more. -/
def FindDay (m : Macros) (Calender : List Nat) : DS1307_DAYS_t :=
  let l1 := Calender.getD m.FIRST_LETTER_OF_DAY 0
  let l2 := Calender.getD m.SECOND_LETTER_OF_DAY 0
  let l3 := Calender.getD m.THIRD_LETTER_OF_DAY 0
  if (83 = l1 ∨ 115 = l1) ∧ (65 = l2 ∨ 97 = l2) ∧ (84 = l3 ∨ 116 = l3) then
    .DS1307_SATURDAY
  else if (83 = l1 ∨ 115 = l1) ∧ (85 = l2 ∨ 117 = l2) ∧ (78 = l3 ∨ 110 = l3) then
    .DS1307_SUNDAY
  else if (77 = l1 ∨ 109 = l1) ∧ (79 = l2 ∨ 111 = l2) ∧ (78 = l3 ∨ 110 = l3) then
    .DS1307_MONDAY
  else if (84 = l1 ∨ 116 = l1) ∧ (85 = l2 ∨ 117 = l2) ∧ (69 = l3 ∨ 101 = l3) then
    .DS1307_TUESDAY
  else if (87 = l1 ∨ 119 = l1) ∧ (69 = l2 ∨ 101 = l2) ∧ (68 = l3 ∨ 100 = l3) then
    .DS1307_WEDNESDAY
  else if (84 = l1 ∨ 116 = l1) ∧ (72 = l2 ∨ 104 = l2) ∧ (85 = l3 ∨ 117 = l3) then
    .DS1307_THURSDAY
  else if (70 = l1 ∨ 102 = l1) ∧ (82 = l2 ∨ 114 = l2) ∧ (73 = l3 ∨ 105 = l3) then
    .DS1307_FRIDAY
  else
    .WRONG_DAY

/-- `Calculate_Calender(Date_Time_To_RTC, Date_Time_From_USART)`. -/
def Calculate_Calender (Date_Time_To_RTC : DS1307_Config_t)
    (Date_Time_From_USART : List Nat) : DS1307_Config_t :=
  let b := fun i => Date_Time_From_USART.getD i 0
  { Date_Time_To_RTC with
    Year := twoDigits ZERO_ASCII (b 0) (b 1)
    Month := twoDigits ZERO_ASCII (b 3) (b 4)
    Date := twoDigits ZERO_ASCII (b 6) (b 7)
    Hours := twoDigits ZERO_ASCII (b 15) (b 16)
    Minutes := twoDigits ZERO_ASCII (b 18) (b 19)
    Seconds := twoDigits ZERO_ASCII (b 21) (b 22) }

/-- `Check_Calender(Date_Time_To_RTC)`. -/
def Check_Calender (m : Macros) (Date_Time_To_RTC : DS1307_Config_t) : Error_State_t :=
  if Date_Time_To_RTC.Date > m.MAX_DATE ∨ Date_Time_To_RTC.Day = .WRONG_DAY ∨
      Date_Time_To_RTC.Hours > MAX_HOURS ∨ Date_Time_To_RTC.Minutes > MAX_MINUTES ∨
      Date_Time_To_RTC.Month > m.MAX_MONTH ∨ Date_Time_To_RTC.Seconds > MAX_SECONDS ∨
      Date_Time_To_RTC.Year > m.MAX_YEAR then
    .NOK
  else
    .OK

/-- `ReadDateTime_FromPC()`: `CALENDER_FORMAT` words from the line into
`Date_Time_USART`, the decode into the global `Date_Time_RTC`, then the check. -/
def ReadDateTime_FromPC (m : Macros) (w : World) : Run Error_State_t :=
  match receiveLoop m.CALENDER_FORMAT m.CALENDER_FORMAT 0
      (List.replicate m.CALENDER_FORMAT 0) w with
  | .blocked w1 => .blocked w1
  | .done Date_Time_USART w1 =>
    let w2 := { w1 with Date_Time_RTC := Calculate_Calender w1.Date_Time_RTC Date_Time_USART }
    let w3 := { w2 with
      Date_Time_RTC := { w2.Date_Time_RTC with Day := FindDay m Date_Time_USART } }
    if Check_Calender m w3.Date_Time_RTC = .OK then .done .OK w3 else .done .NOK w3

/-! ## Display -/

/-- `Reading_Time()`; the snapshot returned by `DS1307_ReadDateTime` is the
argument `ReadingStruct`.  The numeric values of the enumeration `DS1307_DAYS_t`
are declared in a header that is not in the sources; `dayCode` gives them, and
the value of the weekday is narrowed to the byte it is stored in. -/
def Reading_Time (m : Macros) (dayCode : DS1307_DAYS_t → Nat)
    (ReadingStruct : DS1307_Config_t) (w : World) : World :=
  let a0 := w.ReadingArr.set 0 (m.DISPLAY_CODE % 256)
  let a1 := a0.set 1 ReadingStruct.Seconds
  let a2 := a1.set 2 ReadingStruct.Minutes
  let a3 := a2.set 3 ReadingStruct.Hours
  let a4 := a3.set 4 (dayCode ReadingStruct.Day % 256)
  let a5 := a4.set 5 ReadingStruct.Month
  let a6 := a5.set 6 ReadingStruct.Year
  let a7 := a6.set 7 ReadingStruct.Date
  { w with ReadingArr := a7 }

/-- `Transmit_Time()`. -/
def Transmit_Time (w : World) : World :=
  SPI_Transmit_IT w w.ReadingArr 30 .SPI_CALL_BACK

/-! ## The array writes of `SetAlarm`

The arrays of the embedding are lists, and a `List.set` past the end leaves the
list as it is.  To speak of the indexes the code writes at, `SetAlarm` and the
functions it calls are given once more with a log: the same statements in the
same order, each array store recorded with the index it uses and the call of
`CalcAlarm` recorded with its argument.  The row index of `AlarmTime` is recorded
as the `int` value `AlarmNumber - 48` that C computes. -/

/-- A logged step of `SetAlarm`: a store into `AlarmName`, into `RecTemp` or into
`AlarmTime`, or the call `CalcAlarm(AlarmNumber)`. -/
inductive Event where
  | storeAlarmName (i : Nat)
  | storeRecTemp (i : Nat)
  | storeAlarmTime (row : Int) (col : Nat)
  | callCalcAlarm (AlarmNumber : Nat)
  deriving DecidableEq, Repr

/-- The receive loop with the indexes `c` of its stores `Arr[c] = ...`. -/
def receiveLoopLog (n : Nat) : Nat → Nat → List Nat → World → Run (List Nat) × List Nat
  | 0, _, Arr, w => (.done Arr w, [])
  | fuel + 1, c, Arr, w =>
    if c < n then
      match UART_u16Receive w with
      | .blocked w1 => (.blocked w1, [])
      | .done x w1 =>
        let r := receiveLoopLog n fuel (c + 1) (Arr.set c (x % 256)) w1
        (r.1, c :: r.2)
    else (.done Arr w, [])

/-- `CalcAlarm(AlarmNumber)` with its stores: those into `RecTemp`, then the three
into row `AlarmNumber - 48` of `AlarmTime`. -/
def CalcAlarmLog (AlarmNumber : Nat) (w : World) : Run Unit × List Event :=
  let r := receiveLoopLog 8 8 0 (List.replicate 8 0) w
  match r.1 with
  | .blocked w1 => (.blocked w1, r.2.map .storeRecTemp)
  | .done RecTemp w1 =>
    let t0 := setCell w1.AlarmTime (AlarmNumber - 48) 0
      (twoDigits 48 (RecTemp.getD 0 0) (RecTemp.getD 1 0))
    let t1 := setCell t0 (AlarmNumber - 48) 1
      (twoDigits 48 (RecTemp.getD 3 0) (RecTemp.getD 4 0))
    let t2 := setCell t1 (AlarmNumber - 48) 2
      (twoDigits 48 (RecTemp.getD 6 0) (RecTemp.getD 7 0))
    (.done () { w1 with AlarmTime := t2 },
      r.2.map .storeRecTemp ++
        [.storeAlarmTime ((AlarmNumber : Int) - 48) 0,
         .storeAlarmTime ((AlarmNumber : Int) - 48) 1,
         .storeAlarmTime ((AlarmNumber : Int) - 48) 2])

/-- The label loop of `SetAlarm` with its stores `AlarmName[AlarmNameCounter] = ...`. -/
def SetAlarm.nameLoopLog : Nat → World → Run Unit × List Event
  | 0, w => (.done () w, [])
  | fuel + 1, w =>
    if w.AlarmNameCounter < 30 then
      match UART_u16Receive w with
      | .blocked w1 => (.blocked w1, [])
      | .done x w1 =>
        let w2 := { w1 with AlarmName := w1.AlarmName.set w1.AlarmNameCounter (x % 256) }
        if w2.AlarmName.getD w2.AlarmNameCounter 0 = 13 then
          (.done () w2, [.storeAlarmName w1.AlarmNameCounter])
        else
          let r := SetAlarm.nameLoopLog fuel
            { w2 with AlarmNameCounter := w2.AlarmNameCounter + 1 }
          (r.1, .storeAlarmName w1.AlarmNameCounter :: r.2)
    else (.done () w, [])

/-- `SetAlarm.go` with its stores and its call of `CalcAlarm`. -/
def SetAlarm.goLog : Nat → World → Run Unit × List Event
  | 0, w => (.blocked w, [])
  | fuel + 1, w =>
    match UART_u16Receive w with
    | .blocked w1 => (.blocked w1, [])
    | .done x w1 =>
      let ChooseNum := x % 256
      let l := SetAlarm.nameLoopLog 28 { w1 with AlarmNameCounter := 2 }
      match l.1 with
      | .blocked w2 => (.blocked w2, l.2)
      | .done _ w2 =>
        if ChooseNum > 48 ∧ ChooseNum < 54 then
          let c := CalcAlarmLog (ChooseNum - 1) w2
          (c.1, l.2 ++ .callCalcAlarm (ChooseNum - 1) :: c.2)
        else
          let g := SetAlarm.goLog fuel w2
          (g.1, l.2 ++ g.2)

/-- `SetAlarm()` with its stores and its call of `CalcAlarm`. -/
def SetAlarmLog (w : World) : Run Unit × List Event :=
  SetAlarm.goLog (w.rx.length + 1) w

/-! ## Vocabulary of the statements -/

/-- The matching relation of the access guard: `id[i] == password[3-i]` for
every `i` in `0..3`. -/
def Matching (id pass : List Nat) : Prop :=
  ∀ i, i < 4 → id.getD i 0 = pass.getD (3 - i) 0

instance (id pass : List Nat) : Decidable (Matching id pass) := by
  unfold Matching; infer_instance

/-- An id and a password as the operator types them, word by word, at the two
prompts of `TryAgain`. -/
structure Attempt where
  id : List Nat
  pass : List Nat
  deriving DecidableEq, Repr

/-- The words of an attempt in the order they are typed. -/
def Attempt.words (a : Attempt) : List Nat := a.id ++ a.pass

/-- An attempt fills both prompts: four words each. -/
def Attempt.sized (a : Attempt) : Prop := a.id.length = 4 ∧ a.pass.length = 4

instance (a : Attempt) : Decidable a.sized := by
  unfold Attempt.sized; infer_instance

/-- The typed attempt matches, on the bytes that `ID_Reception` and
`Pass_Reception` store. -/
def Attempt.matching (a : Attempt) : Prop :=
  Matching (a.id.map (· % 256)) (a.pass.map (· % 256))

instance (a : Attempt) : Decidable a.matching := by
  unfold Attempt.matching; infer_instance

/-- The words typed for a sequence of attempts. -/
def typed (as : List Attempt) : List Nat := (as.map Attempt.words).flatten

/-- The frame `DATA_SENT_viaSPI` of `Check_LoginInfo`: the red code, then zeros. -/
def redFrame (m : Macros) : List Nat := (m.RED_LED_CODE % 256) :: List.replicate 29 0

/-- The global arrays have their declared sizes: `AlarmTime[5][3]`,
`AlarmName[30]`, `ReadingArr[30]`. -/
def World.sized (w : World) : Prop :=
  w.AlarmTime.length = 5 ∧ (∀ row ∈ w.AlarmTime, row.length = 3) ∧
    w.AlarmName.length = 30 ∧ w.ReadingArr.length = 30

instance (w : World) : Decidable w.sized := by
  unfold World.sized; infer_instance

/-- A sample assignment of the header macros, used to run the model on concrete
inputs: codes 1 to 4, a 23-byte calendar text with the weekday letters at
offsets 10 to 12, and the calendar bounds 31, 12 and 99. -/
def sampleMacros : Macros :=
  { RED_LED_CODE := 1, GREEN_LED_CODE := 2, ALARMCODE := 3, DISPLAY_CODE := 4,
    CALENDER_FORMAT := 23, FIRST_LETTER_OF_DAY := 10, SECOND_LETTER_OF_DAY := 11,
    THIRD_LETTER_OF_DAY := 12, MAX_DATE := 31, MAX_MONTH := 12, MAX_YEAR := 99 }

/-- The state at start-up with the words `rx` still to come on the line: the
buffers zeroed as declared and every alarm row filled with the empty marker. -/
def startWorld (rx : List Nat) : World :=
  { rx := rx, spi := [], ReadingArr := List.replicate 30 0,
    AlarmTime := List.replicate 5 [255, 255, 255], AlarmName := List.replicate 30 0,
    AlarmNameCounter := 0,
    Date_Time_RTC := ⟨0, 0, 0, .WRONG_DAY, 0, 0, 0⟩ }

/-- The array left by the receive loop once it has stored the words `xs` from
index `c` on, each narrowed to a byte. -/
def storeFrom (Arr : List Nat) (c : Nat) : List Nat → List Nat
  | [] => Arr
  | x :: xs => storeFrom (Arr.set c (x % 256)) (c + 1) xs

/-- Row `i` of the table holds an alarm (its hour is not the empty marker 0xFF)
whose hour, minute and second equal those of the reading. -/
def slotDue (t : List (List Nat)) (now : DS1307_Config_t) (i : Nat) : Prop :=
  cell t i 0 ≠ 255 ∧ cell t i 0 = now.Hours ∧ cell t i 1 = now.Minutes ∧
    cell t i 2 = now.Seconds

instance (t : List (List Nat)) (now : DS1307_Config_t) (i : Nat) :
    Decidable (slotDue t now i) := by
  unfold slotDue; infer_instance

/-- The slot numbers (1-based) that one pass of `CompTime` notifies when it
resumes at row `Counter1`: a due row is notified and the row after it is passed
over, any other row is passed by. -/
def notified (t : List (List Nat)) (now : DS1307_Config_t) : Nat → Nat → List Nat
  | 0, _ => []
  | fuel + 1, Counter1 =>
    if Counter1 < 5 then
      if slotDue t now Counter1 then (Counter1 + 1) :: notified t now fuel (Counter1 + 2)
      else notified t now fuel (Counter1 + 1)
    else []

/-- The transmission `CompTime` starts for slot `k`: the shared buffer
`AlarmName` with the alarm code in byte 0 and `k` in byte 1. -/
def alarmFrame (m : Macros) (AlarmName : List Nat) (k : Nat) : Transmission :=
  ⟨((AlarmName.set 0 (m.ALARMCODE % 256)).set 1 k).take 30, .SPI1_ISR⟩

/-- The words the operator types for a label at the prompt of `SetAlarm`: the
label and then Enter (13); after a 28th label byte the buffer is full and no
Enter is read. -/
def labelKeys (label : List Nat) : List Nat :=
  if label.length < 28 then label ++ [13] else label

/-- The upper-case form of an ASCII byte: the letters `a..z` (97..122) are moved
to `A..Z`, every other byte is kept. -/
def upperCase (b : Nat) : Nat :=
  if 97 ≤ b ∧ b ≤ 122 then b - 32 else b

/-- The seven weekday abbreviations, as ASCII codes, each with its day. -/
def abbreviations : List (List Nat × DS1307_DAYS_t) :=
  [("SAT".toList.map Char.toNat, .DS1307_SATURDAY),
   ("SUN".toList.map Char.toNat, .DS1307_SUNDAY),
   ("MON".toList.map Char.toNat, .DS1307_MONDAY),
   ("TUE".toList.map Char.toNat, .DS1307_TUESDAY),
   ("WED".toList.map Char.toNat, .DS1307_WEDNESDAY),
   ("THU".toList.map Char.toNat, .DS1307_THURSDAY),
   ("FRI".toList.map Char.toNat, .DS1307_FRIDAY)]

/-- The three letters equal the abbreviation, letter by letter, ignoring case. -/
def sameLetters (abbr : List Nat) (l1 l2 l3 : Nat) : Prop :=
  abbr = [upperCase l1, upperCase l2, upperCase l3]

instance (abbr : List Nat) (l1 l2 l3 : Nat) : Decidable (sameLetters abbr l1 l2 l3) := by
  unfold sameLetters; infer_instance

/-- The buffer has the ASCII digits `d0 d1` at offsets `i` and `i + 1`. -/
def digitsAt (buf : List Nat) (i d0 d1 : Nat) : Prop :=
  buf.getD i 0 = 48 + d0 ∧ buf.getD (i + 1) 0 = 48 + d1 ∧ d0 ≤ 9 ∧ d1 ≤ 9

instance (buf : List Nat) (i d0 d1 : Nat) : Decidable (digitsAt buf i d0 d1) := by
  unfold digitsAt; infer_instance

/-- The bytes of `Date_Time_USART` once the words `text` have been received. -/
def received (text : List Nat) : List Nat := text.map (· % 256)

/-- A sample numbering of the weekdays, used to run the model on concrete
inputs: Saturday 1 to Friday 7, and 8 for the invalid weekday. -/
def sampleDayCode : DS1307_DAYS_t → Nat
  | .DS1307_SATURDAY => 1
  | .DS1307_SUNDAY => 2
  | .DS1307_MONDAY => 3
  | .DS1307_TUESDAY => 4
  | .DS1307_WEDNESDAY => 5
  | .DS1307_THURSDAY => 6
  | .DS1307_FRIDAY => 7
  | .WRONG_DAY => 8

/-- What the operator types at the two prompts of one call of `SetAlarm`: the
word for the slot choice and the label. -/
structure Round where
  choice : Nat
  label : List Nat
  deriving DecidableEq, Repr

/-- The words of a round in the order they are typed. -/
def Round.keys (r : Round) : List Nat := r.choice :: labelKeys r.label

/-- The label of the round fits the prompt: at most 28 bytes, none of them
Enter. -/
def Round.sized (r : Round) : Prop :=
  r.label.length ≤ 28 ∧ ∀ b ∈ r.label, b % 256 ≠ 13

instance (r : Round) : Decidable r.sized := by
  unfold Round.sized; infer_instance

/-- The received choice byte is one of the characters `1` to `5`. -/
def Round.accepted (r : Round) : Prop :=
  r.choice % 256 ∈ ['1', '2', '3', '4', '5'].map Char.toNat

instance (r : Round) : Decidable r.accepted := by
  unfold Round.accepted; infer_instance

/-- The words typed for a sequence of rounds. -/
def typedRounds (rs : List Round) : List Nat := (rs.map Round.keys).flatten

/-- The state `SetAlarm` is in once it has read the label of a round: the label
words stored from index 2 of `AlarmName` and the counter on the last index
written. -/
def afterLabel (w : World) (label rest : List Nat) : World :=
  { w with
    rx := rest
    AlarmName := storeFrom w.AlarmName 2 (labelKeys label)
    AlarmNameCounter := 2 + label.length }

/-- The invariant of the alarm table: each of the five slots is empty (its hour
byte is the marker 0xFF) or holds an hour in `0..23`, a minute in `0..59` and a
second in `0..59`. -/
def tableValid (t : List (List Nat)) : Prop :=
  ∀ i, i < 5 → (cell t i 0 = 0xFF ∨ (cell t i 0 ≤ 23 ∧ cell t i 1 ≤ 59 ∧ cell t i 2 ≤ 59))

instance (t : List (List Nat)) : Decidable (tableValid t) := by
  unfold tableValid; infer_instance

/-- A logged step is within bounds: a store into `AlarmName[30]` at an index in
`2..29`, a store into `RecTemp[8]` at an index below 8, a store into
`AlarmTime[5][3]` at a row in `0..4` and a column below 3, and a call of
`CalcAlarm` with `choice - 1` for a choice byte that is one of the characters
`1` to `5`. -/
def Event.inBounds : Event → Prop
  | .storeAlarmName i => 2 ≤ i ∧ i ≤ 29
  | .storeRecTemp i => i < 8
  | .storeAlarmTime row col => 0 ≤ row ∧ row ≤ 4 ∧ col < 3
  | .callCalcAlarm AlarmNumber =>
    ∃ choice, choice ∈ ['1', '2', '3', '4', '5'].map Char.toNat ∧ AlarmNumber = choice - 1 ∧
      0 ≤ (choice : Int) - 1 - 48 ∧ (choice : Int) - 1 - 48 ≤ 4

/-! ## Reading from the line -/

theorem storeFrom_length (xs : List Nat) : ∀ (Arr : List Nat) (c : Nat),
    (storeFrom Arr c xs).length = Arr.length := by
  induction xs with
  | nil => intro Arr c; rfl
  | cons x xs ih => intro Arr c; simp [storeFrom, ih]

theorem storeFrom_append (xs : List Nat) : ∀ (pre zs post : List Nat),
    zs.length = xs.length →
    storeFrom (pre ++ zs ++ post) pre.length xs = pre ++ xs.map (· % 256) ++ post := by
  induction xs with
  | nil =>
    intro pre zs post h
    have hz : zs = [] := List.length_eq_zero.mp h
    simp [storeFrom, hz]
  | cons x xs ih =>
    intro pre zs post h
    cases zs with
    | nil => simp at h
    | cons z zs =>
      have hlen : zs.length = xs.length := by simpa using h
      have hset : (pre ++ z :: zs ++ post).set pre.length (x % 256)
          = (pre ++ [x % 256]) ++ zs ++ post := by
        simp [List.append_assoc]
      have := ih (pre ++ [x % 256]) zs post hlen
      simp only [storeFrom, hset]
      simpa [List.append_assoc] using this

theorem storeFrom_replicate (xs : List Nat) :
    storeFrom (List.replicate xs.length 0) 0 xs = xs.map (· % 256) := by
  have := storeFrom_append xs [] (List.replicate xs.length 0) [] (by simp)
  simpa using this

/-- The receive loop with enough words pending stores them and leaves the rest
on the line. -/
theorem receiveLoop_append (n : Nat) (xs : List Nat) :
    ∀ (c : Nat) (Arr : List Nat) (w : World) (rest : List Nat),
      c + xs.length ≤ n → w.rx = xs ++ rest →
      receiveLoop n xs.length c Arr w
        = .done (storeFrom Arr c xs) { w with rx := rest } := by
  induction xs with
  | nil =>
    intro c Arr w rest _ hrx
    simp only [List.nil_append] at hrx
    simp [receiveLoop, storeFrom, ← hrx]
  | cons x xs ih =>
    intro c Arr w rest hc hrx
    have hlt : c < n := by simp at hc; omega
    have hc2 : c + 1 + xs.length ≤ n := by simp at hc; omega
    simp only [List.length_cons, receiveLoop, hlt, if_true, UART_u16Receive, hrx,
      List.cons_append, storeFrom]
    exact ih (c + 1) _ { w with rx := xs ++ rest } rest hc2 rfl

/-- The receive loop with too few words pending takes them all and waits. -/
theorem receiveLoop_short (n : Nat) : ∀ (fuel c : Nat) (Arr : List Nat) (w : World),
    c + fuel ≤ n → w.rx.length < fuel →
    receiveLoop n fuel c Arr w = .blocked { w with rx := [] } := by
  intro fuel
  induction fuel with
  | zero => intro c Arr w _ h; simp at h
  | succ fuel ih =>
    intro c Arr w hc hlen
    have hlt : c < n := by omega
    cases hrx : w.rx with
    | nil =>
      simp [receiveLoop, hlt, UART_u16Receive, hrx]
      cases w; simp_all
    | cons x xs =>
      simp only [receiveLoop, hlt, if_true, UART_u16Receive, hrx]
      have := ih (c + 1) (Arr.set c (x % 256)) { w with rx := xs } (by omega)
        (by simp [hrx] at hlen; simpa using hlen)
      simpa using this
/-! ## Access guard -/

/-- The comparison returns "equal" exactly on matching pairs. -/
theorem ID_Equal_InvertedPass_eq_iff (ID Pass : List Nat) :
    ID_Equal_InvertedPass ID Pass NUM_OF_ID_PASS_DIGITS = .ID_EQUAL_INVERTED_PASS
      ↔ Matching ID Pass := by
  have hinv : InvertPass Pass NUM_OF_ID_PASS_DIGITS
      = [Pass.getD 3 0, Pass.getD 2 0, Pass.getD 1 0, Pass.getD 0 0] := by
    simp [InvertPass, InvertPass.loop, NUM_OF_ID_PASS_DIGITS]
  unfold ID_Equal_InvertedPass
  rw [hinv]
  constructor
  · intro h i hi
    simp only [NUM_OF_ID_PASS_DIGITS, ID_Equal_InvertedPass.loop] at h
    interval_cases i <;> by_contra hne <;> simp_all
  · intro h
    have h0 := h 0 (by omega)
    have h1 := h 1 (by omega)
    have h2 := h 2 (by omega)
    have h3 := h 3 (by omega)
    simp only [Nat.sub_zero, Nat.reduceSub] at h0 h1 h2 h3
    simp only [NUM_OF_ID_PASS_DIGITS, ID_Equal_InvertedPass.loop, h0, h1, h2, h3]
    simp

theorem ID_Equal_InvertedPass_ne_iff (ID Pass : List Nat) :
    ID_Equal_InvertedPass ID Pass NUM_OF_ID_PASS_DIGITS = .ID_NOEQUAL_INVERTED_PASS
      ↔ ¬ Matching ID Pass := by
  rw [← ID_Equal_InvertedPass_eq_iff]
  cases ID_Equal_InvertedPass ID Pass NUM_OF_ID_PASS_DIGITS <;> simp

theorem ID_Reception_append (w : World) (xs rest : List Nat) (hlen : xs.length = 4)
    (hrx : w.rx = xs ++ rest) :
    ID_Reception w = .done (xs.map (· % 256)) { w with rx := rest } := by
  have h := receiveLoop_append 4 xs 0 (List.replicate 4 0) w rest (by omega) hrx
  have h2 := storeFrom_replicate xs
  rw [hlen] at h h2
  rw [h2] at h
  exact h

theorem Pass_Reception_append (w : World) (xs rest : List Nat) (hlen : xs.length = 4)
    (hrx : w.rx = xs ++ rest) :
    Pass_Reception w = .done (xs.map (· % 256)) { w with rx := rest } :=
  ID_Reception_append w xs rest hlen hrx

/-- A full attempt on the line: `TryAgain` takes its eight words and compares
the stored bytes. -/
theorem TryAgain_append (p q : List Nat) (w : World) (a : Attempt) (rest : List Nat)
    (ha : a.sized) (hrx : w.rx = a.words ++ rest) :
    TryAgain p q w
      = .done (ID_Equal_InvertedPass (a.id.map (· % 256)) (a.pass.map (· % 256))
          NUM_OF_ID_PASS_DIGITS) { w with rx := rest } := by
  have h1 := ID_Reception_append w a.id (a.pass ++ rest) ha.1
    (by simpa [Attempt.words, List.append_assoc] using hrx)
  have h2 := Pass_Reception_append { w with rx := a.pass ++ rest } a.pass rest ha.2 rfl
  simp [TryAgain, h1, h2]

/-- Fewer than eight words on the line: `TryAgain` takes them and waits. -/
theorem TryAgain_short (p q : List Nat) (w : World) (h : w.rx.length < 8) :
    TryAgain p q w = .blocked { w with rx := [] } := by
  by_cases h4 : w.rx.length < 4
  · have h1 : ID_Reception w = .blocked { w with rx := [] } :=
      receiveLoop_short 4 4 0 (List.replicate 4 0) w (by omega) h4
    simp only [TryAgain, h1]
  · have hsplit : w.rx = w.rx.take 4 ++ w.rx.drop 4 := (List.take_append_drop 4 w.rx).symm
    have h1 := ID_Reception_append w (w.rx.take 4) (w.rx.drop 4)
      (by simp; omega) hsplit
    have h2 : Pass_Reception { w with rx := w.rx.drop 4 }
        = .blocked { w with rx := [] } :=
      receiveLoop_short 4 4 0 (List.replicate 4 0) { w with rx := w.rx.drop 4 }
        (by omega) (by simp; omega)
    simp only [TryAgain, h1, h2]

/-- Whatever is on the line, `TryAgain` either takes eight words and returns a
verdict, or takes what is there and waits; it changes nothing else. -/
theorem TryAgain_cases (p q : List Nat) (w : World) :
    (∃ rel, 8 ≤ w.rx.length ∧
        TryAgain p q w = .done rel { w with rx := w.rx.drop 8 }) ∨
      TryAgain p q w = .blocked { w with rx := [] } := by
  by_cases h : w.rx.length < 8
  · exact Or.inr (TryAgain_short p q w h)
  · left
    have h8 : 8 ≤ w.rx.length := by omega
    let a : Attempt := ⟨w.rx.take 4, (w.rx.drop 4).take 4⟩
    have ha : a.sized := by
      constructor
      · show (w.rx.take 4).length = 4
        simp; omega
      · show ((w.rx.drop 4).take 4).length = 4
        simp; omega
    have hrx : w.rx = a.words ++ w.rx.drop 8 := by
      show w.rx = (w.rx.take 4 ++ (w.rx.drop 4).take 4) ++ w.rx.drop 8
      have e1 : w.rx.drop 8 = (w.rx.drop 4).drop 4 := by simp
      rw [e1, List.append_assoc, List.take_append_drop, List.take_append_drop]
    exact ⟨_, h8, TryAgain_append p q w a (w.rx.drop 8) ha hrx⟩

/-- The retry loop touches nothing but the line, and only takes words from it. -/
theorem Check_LoginInfo_loop_world (p q : List Nat) :
    ∀ (T : Nat) (rel : ID_PASS_EQUALITY_t) (w : World),
      ∃ rx1 : List Nat, rx1.length ≤ w.rx.length ∧
        ((∃ T1, Check_LoginInfo.loop p q T rel w = .done T1 { w with rx := rx1 }) ∨
          Check_LoginInfo.loop p q T rel w = .blocked { w with rx := rx1 }) := by
  intro T
  induction T with
  | zero =>
    intro rel w
    exact ⟨w.rx, le_refl _, Or.inl ⟨0, by simp [Check_LoginInfo.loop]⟩⟩
  | succ T ih =>
    intro rel w
    cases rel with
    | ID_EQUAL_INVERTED_PASS =>
      exact ⟨w.rx, le_refl _, Or.inl ⟨T + 1, by simp [Check_LoginInfo.loop]⟩⟩
    | ID_NOEQUAL_INVERTED_PASS =>
      by_cases hT : T = 0
      · exact ⟨w.rx, le_refl _, Or.inl ⟨T, by simp [Check_LoginInfo.loop, hT]⟩⟩
      · rcases TryAgain_cases p q w with ⟨rel1, h8, hta⟩ | hta
        · obtain ⟨rx1, hlen, hres⟩ := ih rel1 { w with rx := w.rx.drop 8 }
          refine ⟨rx1, ?_, ?_⟩
          · simp at hlen; omega
          · simpa [Check_LoginInfo.loop, hT, hta] using hres
        · exact ⟨[], by simp, Or.inr (by simp [Check_LoginInfo.loop, hT, hta])⟩

/-- After a mismatch with tries left, the retry loop takes at least one word from
the line before it ends. -/
theorem Check_LoginInfo_loop_reads (p q : List Nat) (T : Nat) (w : World) (T1 : Nat)
    (w1 : World) (hT : 2 ≤ T)
    (h : Check_LoginInfo.loop p q T .ID_NOEQUAL_INVERTED_PASS w = .done T1 w1) :
    w1.rx.length < w.rx.length := by
  obtain ⟨T0, rfl⟩ : ∃ T0, T = T0 + 1 := ⟨T - 1, by omega⟩
  have hT0 : T0 ≠ 0 := by omega
  rcases TryAgain_cases p q w with ⟨rel1, h8, hta⟩ | hta
  · obtain ⟨rx1, hlen, hres⟩ := Check_LoginInfo_loop_world p q T0 rel1 { w with rx := w.rx.drop 8 }
    simp only [Check_LoginInfo.loop, hT0, if_false, hta] at h
    rcases hres with ⟨T2, hres⟩ | hres
    · rw [hres] at h
      injection h with _ hw
      rw [← hw]
      simp at hlen ⊢
      omega
    · rw [hres] at h
      cases h
  · simp [Check_LoginInfo.loop, hT0, hta] at h

/-- The retry loop on a line that starts with mismatching attempts: each one
costs a try. -/
theorem Check_LoginInfo_loop_mismatches (p q : List Nat) (retries : List Attempt) :
    (∀ a ∈ retries, a.sized ∧ ¬ a.matching) →
    ∀ (T : Nat) (w : World) (rest : List Nat), retries.length < T →
      w.rx = typed retries ++ rest →
      Check_LoginInfo.loop p q T .ID_NOEQUAL_INVERTED_PASS w
        = Check_LoginInfo.loop p q (T - retries.length) .ID_NOEQUAL_INVERTED_PASS
            { w with rx := rest } := by
  induction retries with
  | nil =>
    intro _ T w rest _ hrx
    have : w = { w with rx := rest } := by cases w; simp_all [typed]
    simp [← this]
  | cons a as ih =>
    intro hall T w rest hT hrx
    obtain ⟨T0, rfl⟩ : ∃ T0, T = T0 + 1 := ⟨T - 1, by simp at hT; omega⟩
    have hT0 : T0 ≠ 0 := by simp at hT; omega
    have ha := hall a (by simp)
    have hrx2 : w.rx = a.words ++ (typed as ++ rest) := by
      simpa [typed, List.append_assoc] using hrx
    have hta := TryAgain_append p q w a (typed as ++ rest) ha.1 hrx2
    have hne := (ID_Equal_InvertedPass_ne_iff _ _).mpr ha.2
    rw [hne] at hta
    have hih := ih (fun b hb => hall b (by simp [hb])) T0
      { w with rx := typed as ++ rest } rest (by simp at hT; omega) rfl
    simp only [Check_LoginInfo.loop, hT0, if_false, hta, hih, List.length_cons]
    have e : T0 + 1 - (as.length + 1) = T0 - as.length := by omega
    rw [e]

theorem SendGreenSignal_spi (m : Macros) (w : World) :
    (SendGreenSignal m w).spi
      = w.spi ++ [⟨(w.ReadingArr.set 0 (m.GREEN_LED_CODE % 256)).take 30, .SPI_CALL_BACK⟩] := rfl

theorem SendGreenSignal_rx (m : Macros) (w : World) : (SendGreenSignal m w).rx = w.rx := rfl

/-- C1: for every id, every password and every number of tries `N ≥ 1` (in
particular for 4-byte arrays of raw bytes), `ID_Equal_InvertedPass(id, pass, 4)`
returns `ID_EQUAL_INVERTED_PASS` exactly when `id[i] == pass[3-i]` for every `i`
in `0..3`, and `Check_LoginInfo` ends in `Granted` with the line untouched (no
re-prompt) exactly in that case. -/
theorem Check_LoginInfo_first_attempt (m : Macros) (ID Pass : List Nat) (N : Nat)
    (w : World) (hN : 1 ≤ N) :
    (ID_Equal_InvertedPass ID Pass 4 = .ID_EQUAL_INVERTED_PASS ↔ Matching ID Pass) ∧
      ((∃ w1, Check_LoginInfo m ID Pass N w = .done .Granted w1 ∧ w1.rx = w.rx)
        ↔ Matching ID Pass) := by
  refine ⟨ID_Equal_InvertedPass_eq_iff ID Pass, ?_, ?_⟩
  · rintro ⟨w1, hres, hrx⟩
    by_contra hne
    have hrel := (ID_Equal_InvertedPass_ne_iff ID Pass).mpr hne
    simp only [Check_LoginInfo, hrel] at hres
    by_cases h1 : N = 1
    · subst h1
      simp [Check_LoginInfo.loop] at hres
    · cases hloop : Check_LoginInfo.loop ID Pass N .ID_NOEQUAL_INVERTED_PASS w with
      | blocked w2 => simp [hloop] at hres
      | done T w2 =>
        have hlt := Check_LoginInfo_loop_reads ID Pass N w T w2 (by omega) hloop
        simp only [hloop] at hres
        split at hres
        · cases hres
        · injection hres with _ hw
          rw [← hw, SendGreenSignal_rx] at hrx
          rw [hrx] at hlt
          exact lt_irrefl _ hlt
  · intro hmatch
    have hrel := (ID_Equal_InvertedPass_eq_iff ID Pass).mpr hmatch
    obtain ⟨N0, rfl⟩ : ∃ N0, N = N0 + 1 := ⟨N - 1, by omega⟩
    exact ⟨SendGreenSignal m w, by simp [Check_LoginInfo, hrel, Check_LoginInfo.loop],
      SendGreenSignal_rx m w⟩

/-- C1 at a concrete input: id 1234 with password 4321 and three tries is granted
at once, the words on the line left where they were. -/
theorem Check_LoginInfo_first_attempt_witness :
    1 ≤ 3 ∧ ((∃ w1, Check_LoginInfo sampleMacros [1, 2, 3, 4] [4, 3, 2, 1] 3 (startWorld [7, 7])
        = .done .Granted w1 ∧ w1.rx = (startWorld [7, 7]).rx)
      ↔ Matching [1, 2, 3, 4] [4, 3, 2, 1]) :=
  ⟨by decide, (Check_LoginInfo_first_attempt sampleMacros [1, 2, 3, 4] [4, 3, 2, 1] 3
    (startWorld [7, 7]) (by decide)).2⟩

/-- C2: with `1 ≤ N ≤ 255` tries and a supplied pair that mismatches, when the
line then carries `N-1` re-entered pairs that all mismatch, `Check_LoginInfo` ends
in `Locked` having read exactly those `N-1` pairs and nothing after them, and has
sent the red frame; when the line carries fewer than `N-1` mismatching pairs (and
less than one further pair), it is not locked: it waits for input and has sent
nothing. -/
theorem Check_LoginInfo_locks_after_tries (m : Macros) (ID Pass : List Nat) (N : Nat)
    (w : World) (hN : 1 ≤ N) (_hN255 : N ≤ 255) (hfirst : ¬ Matching ID Pass) :
    (∀ (retries : List Attempt) (rest : List Nat), retries.length = N - 1 →
        (∀ a ∈ retries, a.sized ∧ ¬ a.matching) → w.rx = typed retries ++ rest →
        Check_LoginInfo m ID Pass N w
          = .done .Locked
              { w with rx := rest, spi := w.spi ++ [⟨redFrame m, .SPI_CallBackFunc⟩] }) ∧
      (∀ (retries : List Attempt) (tail : List Nat), retries.length < N - 1 →
        (∀ a ∈ retries, a.sized ∧ ¬ a.matching) → tail.length < 8 →
        w.rx = typed retries ++ tail →
        Check_LoginInfo m ID Pass N w = .blocked { w with rx := [] }) := by
  have hrel := (ID_Equal_InvertedPass_ne_iff ID Pass).mpr hfirst
  constructor
  · intro retries rest hlen hall hrx
    have hloop := Check_LoginInfo_loop_mismatches ID Pass retries hall N w rest (by omega) hrx
    have e : N - retries.length = 1 := by omega
    rw [e] at hloop
    simp [Check_LoginInfo, hrel, hloop, Check_LoginInfo.loop, SPI_Transmit_IT, redFrame]
  · intro retries tail hlen hall htail hrx
    have hloop := Check_LoginInfo_loop_mismatches ID Pass retries hall N w tail (by omega) hrx
    obtain ⟨T0, hT0⟩ : ∃ T0, N - retries.length = T0 + 1 + 1 := ⟨N - retries.length - 2, by omega⟩
    have hta := TryAgain_short ID Pass { w with rx := tail } htail
    rw [hT0] at hloop
    simp [Check_LoginInfo, hrel, hloop, Check_LoginInfo.loop] at hta ⊢
    simp [hta]

/-- C2 at a concrete input: two tries, the supplied pair and the one re-entered
pair both mismatch; the guard locks after reading that one pair and leaves the
word after it on the line. -/
theorem Check_LoginInfo_locks_after_tries_witness :
    Check_LoginInfo sampleMacros [1, 2, 3, 4] [1, 2, 3, 4] 2
        (startWorld [5, 6, 7, 8, 5, 6, 7, 8, 9])
      = .done .Locked
          { startWorld [5, 6, 7, 8, 5, 6, 7, 8, 9] with
            rx := [9], spi := [⟨redFrame sampleMacros, .SPI_CallBackFunc⟩] } :=
  (Check_LoginInfo_locks_after_tries sampleMacros [1, 2, 3, 4] [1, 2, 3, 4] 2
    (startWorld [5, 6, 7, 8, 5, 6, 7, 8, 9]) (by decide) (by decide) (by decide)).1
    [⟨[5, 6, 7, 8], [5, 6, 7, 8]⟩] [9] (by decide) (by decide) (by decide)

/-- C3: with `1 ≤ N ≤ 255` tries, when the first `k < N` attempts mismatch and
attempt `k+1` matches, `Check_LoginInfo` ends in `Granted`: at once when the
supplied pair matches (`k = 0`), and otherwise after the supplied pair and
`k-1` re-entered pairs mismatch and the next re-entered pair matches, having
read exactly those `k` pairs. -/
theorem Check_LoginInfo_grants_within_tries (m : Macros) (ID Pass : List Nat) (N : Nat)
    (w : World) (hN : 1 ≤ N) (_hN255 : N ≤ 255) :
    (Matching ID Pass →
        Check_LoginInfo m ID Pass N w = .done .Granted (SendGreenSignal m w)) ∧
      (¬ Matching ID Pass →
        ∀ (retries : List Attempt) (a : Attempt) (rest : List Nat),
          retries.length + 1 < N → (∀ b ∈ retries, b.sized ∧ ¬ b.matching) →
          a.sized → a.matching → w.rx = typed retries ++ a.words ++ rest →
          Check_LoginInfo m ID Pass N w
            = .done .Granted (SendGreenSignal m { w with rx := rest })) := by
  constructor
  · intro hmatch
    have hrel := (ID_Equal_InvertedPass_eq_iff ID Pass).mpr hmatch
    obtain ⟨N0, rfl⟩ : ∃ N0, N = N0 + 1 := ⟨N - 1, by omega⟩
    simp [Check_LoginInfo, hrel, Check_LoginInfo.loop]
  · intro hfirst retries a rest hlen hall ha hmatch hrx
    have hrel := (ID_Equal_InvertedPass_ne_iff ID Pass).mpr hfirst
    have hloop := Check_LoginInfo_loop_mismatches ID Pass retries hall N w
      (a.words ++ rest) (by omega) (by simpa [List.append_assoc] using hrx)
    obtain ⟨T0, hT0⟩ : ∃ T0, N - retries.length = T0 + 1 + 1 := ⟨N - retries.length - 2, by omega⟩
    have hta := TryAgain_append ID Pass { w with rx := a.words ++ rest } a rest ha rfl
    rw [(ID_Equal_InvertedPass_eq_iff _ _).mpr hmatch] at hta
    rw [hT0] at hloop
    simp [Check_LoginInfo, hrel, hloop, Check_LoginInfo.loop] at hta ⊢
    simp [hta, Check_LoginInfo.loop]

/-- C3 at a concrete input: three tries, the supplied pair and the first
re-entered pair mismatch, the second re-entered pair (1234 / 4321) matches. -/
theorem Check_LoginInfo_grants_within_tries_witness :
    Check_LoginInfo sampleMacros [1, 2, 3, 4] [1, 2, 3, 4] 3
        (startWorld [5, 6, 7, 8, 5, 6, 7, 8, 1, 2, 3, 4, 4, 3, 2, 1, 9])
      = .done .Granted (SendGreenSignal sampleMacros
          { startWorld [5, 6, 7, 8, 5, 6, 7, 8, 1, 2, 3, 4, 4, 3, 2, 1, 9] with rx := [9] }) :=
  (Check_LoginInfo_grants_within_tries sampleMacros [1, 2, 3, 4] [1, 2, 3, 4] 3
    (startWorld [5, 6, 7, 8, 5, 6, 7, 8, 1, 2, 3, 4, 4, 3, 2, 1, 9])
    (by decide) (by decide)).2 (by decide)
    [⟨[5, 6, 7, 8], [5, 6, 7, 8]⟩] ⟨[1, 2, 3, 4], [4, 3, 2, 1]⟩ [9]
    (by decide) (by decide) (by decide) (by decide) (by decide)

/-- C4: every run of `Check_LoginInfo` that resolves has handed exactly one frame
to the link, of 30 bytes, whose byte 0 is the green code iff the outcome is
`Granted` and the red code iff the outcome is `Locked` (the two codes being
different bytes); a run that is still waiting at a prompt has sent no frame. -/
theorem Check_LoginInfo_one_frame (m : Macros) (ID Pass : List Nat) (N : Nat) (w : World)
    (hcodes : m.GREEN_LED_CODE % 256 ≠ m.RED_LED_CODE % 256)
    (hlen : w.ReadingArr.length = 30) :
    (∀ (s : GuardState) (w1 : World), Check_LoginInfo m ID Pass N w = .done s w1 →
        ∃ f, w1.spi = w.spi ++ [f] ∧ f.data.length = 30 ∧
          (f.data.getD 0 0 = m.GREEN_LED_CODE % 256 ↔ s = .Granted) ∧
          (f.data.getD 0 0 = m.RED_LED_CODE % 256 ↔ s = .Locked)) ∧
      (∀ w1 : World, Check_LoginInfo m ID Pass N w = .blocked w1 → w1.spi = w.spi) := by
  obtain ⟨rx1, -, hres⟩ := Check_LoginInfo_loop_world ID Pass N
    (ID_Equal_InvertedPass ID Pass NUM_OF_ID_PASS_DIGITS) w
  obtain ⟨x, xs, hx⟩ : ∃ x xs, w.ReadingArr = x :: xs := by
    cases h : w.ReadingArr with
    | nil => simp [h] at hlen
    | cons x xs => exact ⟨x, xs, rfl⟩
  have hxs : xs.length = 29 := by simpa [hx] using hlen
  rcases hres with ⟨T1, hres⟩ | hres
  · by_cases hT : T1 = 0
    · constructor
      · intro s w1 h
        simp only [Check_LoginInfo, hres, hT, if_true] at h
        injection h with hs hw
        subst hs; subst hw
        refine ⟨⟨redFrame m, .SPI_CallBackFunc⟩, by simp [SPI_Transmit_IT, redFrame], by simp [redFrame], ?_, ?_⟩
        · simp [redFrame]; exact fun h => hcodes h.symm
        · simp [redFrame]
      · intro w1 h
        simp [Check_LoginInfo, hres, hT] at h
    · constructor
      · intro s w1 h
        simp only [Check_LoginInfo, hres, hT, if_false] at h
        injection h with hs hw
        subst hs; subst hw
        refine ⟨⟨(w.ReadingArr.set 0 (m.GREEN_LED_CODE % 256)).take 30, .SPI_CALL_BACK⟩,
          rfl, by simp [hlen], ?_, ?_⟩
        · simp [hx]
        · simp [hx]; exact hcodes
      · intro w1 h
        simp [Check_LoginInfo, hres, hT] at h
  · constructor
    · intro s w1 h
      simp [Check_LoginInfo, hres] at h
    · intro w1 h
      simp only [Check_LoginInfo, hres] at h
      injection h with hw
      subst hw
      rfl

/-- C4 at a concrete input: one try and a mismatching pair; the run locks and the
single frame it sent starts with the red code. -/
theorem Check_LoginInfo_one_frame_witness :
    ∃ f : Transmission,
      ({ startWorld [] with spi := [⟨redFrame sampleMacros, .SPI_CallBackFunc⟩] } : World).spi
          = (startWorld []).spi ++ [f] ∧ f.data.length = 30 ∧
        (f.data.getD 0 0 = sampleMacros.GREEN_LED_CODE % 256 ↔ GuardState.Locked = .Granted) ∧
        (f.data.getD 0 0 = sampleMacros.RED_LED_CODE % 256 ↔ GuardState.Locked = .Locked) :=
  (Check_LoginInfo_one_frame sampleMacros [1, 2, 3, 4] [1, 2, 3, 4] 1 (startWorld [])
    (by decide) (by decide)).1 .Locked
    { startWorld [] with spi := [⟨redFrame sampleMacros, .SPI_CallBackFunc⟩] } (by decide)

/-! ## Alarm engine -/

/-- The inner loop ends with `Equal` exactly when the three fields agree; the
value of the flag on entry plays no part. -/
theorem CompTime_inner_eq (t : List (List Nat)) (c1 H M S : Nat) (e : Equality_t) :
    CompTime.inner t c1 [H, M, S] 3 0 e
      = if cell t c1 0 = H ∧ cell t c1 1 = M ∧ cell t c1 2 = S then .Equal else .NotEqual := by
  simp only [CompTime.inner]
  by_cases h0 : cell t c1 0 = H <;> by_cases h1 : cell t c1 1 = M <;>
    by_cases h2 : cell t c1 2 = S <;> simp [h0, h1, h2]

theorem alarmFrame_again (m : Macros) (AlarmName : List Nat) (k k2 : Nat) :
    alarmFrame m ((AlarmName.set 0 (m.ALARMCODE % 256)).set 1 k) k2
      = alarmFrame m AlarmName k2 := by
  unfold alarmFrame
  cases AlarmName with
  | nil => rfl
  | cons x xs =>
    cases xs with
    | nil => rfl
    | cons y ys => rfl

theorem alarmFrame_bytes (m : Macros) (AlarmName : List Nat) (k : Nat)
    (hlen : AlarmName.length = 30) :
    (alarmFrame m AlarmName k).data.getD 0 0 = m.ALARMCODE % 256 ∧
      (alarmFrame m AlarmName k).data.getD 1 0 = k ∧
      (alarmFrame m AlarmName k).data.length = 30 ∧
      (alarmFrame m AlarmName k).data.drop 2 = AlarmName.drop 2 ∧
      (alarmFrame m AlarmName k).callback = .SPI1_ISR := by
  unfold alarmFrame
  cases AlarmName with
  | nil => simp at hlen
  | cons x xs =>
    cases xs with
    | nil => simp at hlen
    | cons y ys =>
      have hys : ys.length = 28 := by simpa using hlen
      have htake : List.take 28 ys = ys := by
        rw [← hys]; exact List.take_length ys
      simp [hys, htake]

/-- One pass of `CompTime` from row `Counter1` on: the transmissions it starts
are the alarm frames of the notified slots, in order, and the alarm table and
the line stay as they were. -/
theorem CompTime_outer_spec (m : Macros) (H M S : Nat) (now : DS1307_Config_t)
    (hH : now.Hours = H) (hM : now.Minutes = M) (hS : now.Seconds = S) :
    ∀ (fuel Counter1 : Nat) (e : Equality_t) (w : World),
      (CompTime.outer m [H, M, S] fuel Counter1 e w).spi
          = w.spi ++ (notified w.AlarmTime now fuel Counter1).map (alarmFrame m w.AlarmName) ∧
        (CompTime.outer m [H, M, S] fuel Counter1 e w).AlarmTime = w.AlarmTime ∧
        (CompTime.outer m [H, M, S] fuel Counter1 e w).rx = w.rx := by
  intro fuel
  induction fuel with
  | zero => intro c1 e w; simp [CompTime.outer, notified]
  | succ fuel ih =>
    intro c1 e w
    by_cases hc : c1 < 5
    · by_cases hempty : cell w.AlarmTime c1 0 = 255
      · have hnd : ¬ slotDue w.AlarmTime now c1 := fun h => h.1 hempty
        simpa [CompTime.outer, notified, hc, hempty, hnd] using ih (c1 + 1) e w
      · by_cases heq : cell w.AlarmTime c1 0 = H ∧ cell w.AlarmTime c1 1 = M ∧
            cell w.AlarmTime c1 2 = S
        · have hd : slotDue w.AlarmTime now c1 :=
            ⟨hempty, by rw [hH]; exact heq.1, by rw [hM]; exact heq.2.1,
              by rw [hS]; exact heq.2.2⟩
          have hih := ih (c1 + 1 + 1) .Equal
            (SPI_Transmit_IT
              { w with AlarmName := (w.AlarmName.set 0 (m.ALARMCODE % 256)).set 1 (c1 + 1) }
              ((w.AlarmName.set 0 (m.ALARMCODE % 256)).set 1 (c1 + 1)) 30 .SPI1_ISR)
          simp only [SPI_Transmit_IT, alarmFrame_again] at hih
          have hfun : (alarmFrame m
              ((w.AlarmName.set 0 (m.ALARMCODE % 256)).set 1 (c1 + 1)))
              = alarmFrame m w.AlarmName := by
            funext k2; exact alarmFrame_again m w.AlarmName (c1 + 1) k2
          rw [hfun] at hih
          have hH255 : ¬ H = 255 := by rw [← heq.1]; exact hempty
          simp only [CompTime.outer, hc, if_true, CompTime_inner_eq, heq, and_self,
            notified, hd, List.map_cons, SPI_Transmit_IT, ne_eq, hH255, not_false_eq_true]
          refine ⟨?_, hih.2.1, hih.2.2⟩
          rw [hih.1]
          simp [alarmFrame, List.append_assoc]
        · have hnd : ¬ slotDue w.AlarmTime now c1 := by
            rintro ⟨-, h0, h1, h2⟩
            exact heq ⟨by rw [← hH]; exact h0, by rw [← hM]; exact h1, by rw [← hS]; exact h2⟩
          have hih := ih (c1 + 1) .NotEqual w
          simp only [CompTime.outer, hc, if_true, CompTime_inner_eq, heq, if_false,
            notified, hnd]
          simpa [hempty] using hih
    · simp [CompTime.outer, notified, hc]

/-- The transmissions of one `CompTime` pass. -/
theorem CompTime_spi (m : Macros) (now : DS1307_Config_t) (w : World) :
    (CompTime m now w).spi
      = w.spi ++ (notified w.AlarmTime now 5 0).map (alarmFrame m w.AlarmName) :=
  (CompTime_outer_spec m now.Hours now.Minutes now.Seconds now rfl rfl rfl 5 0 .NotEqual w).1

/-- Every notified slot number is one of `Counter1+1 .. 5` and names a due row. -/
theorem notified_due (t : List (List Nat)) (now : DS1307_Config_t) :
    ∀ (fuel Counter1 k : Nat), k ∈ notified t now fuel Counter1 →
      Counter1 < k ∧ k ≤ 5 ∧ slotDue t now (k - 1) := by
  intro fuel
  induction fuel with
  | zero => intro c1 k h; simp [notified] at h
  | succ fuel ih =>
    intro c1 k h
    by_cases hc : c1 < 5
    · by_cases hd : slotDue t now c1
      · simp only [notified, hc, if_true, hd, List.mem_cons] at h
        rcases h with rfl | h
        · exact ⟨by omega, by omega, by simpa using hd⟩
        · have := ih (c1 + 2) k h
          exact ⟨by omega, this.2⟩
      · simp only [notified, hc, if_true, hd, if_false] at h
        have := ih (c1 + 1) k h
        exact ⟨by omega, this.2⟩
    · simp [notified, hc] at h

theorem twoDigits_digits (d0 d1 : Nat) (h0 : d0 ≤ 9) (h1 : d1 ≤ 9) :
    twoDigits 48 ((48 + d0) % 256) ((48 + d1) % 256) = 10 * d0 + d1 := by
  have e0 : (48 + d0) % 256 = 48 + d0 := Nat.mod_eq_of_lt (by omega)
  have e1 : (48 + d1) % 256 = 48 + d1 := Nat.mod_eq_of_lt (by omega)
  unfold twoDigits
  rw [e0, e1]
  omega

/-- The label loop on a label closed by Enter: the label and the Enter byte are
stored from the counter on, and the counter stops on the Enter byte. -/
theorem SetAlarm_nameLoop_label (label : List Nat) :
    (∀ b ∈ label, b % 256 ≠ 13) →
    ∀ (fuel : Nat) (w : World) (cr : Nat) (rest : List Nat),
      label.length < fuel → w.AlarmNameCounter + label.length < 30 →
      w.AlarmName.length = 30 → cr % 256 = 13 → w.rx = label ++ cr :: rest →
      SetAlarm.nameLoop fuel w
        = .done () { w with
            rx := rest
            AlarmName := storeFrom w.AlarmName w.AlarmNameCounter (label ++ [cr])
            AlarmNameCounter := w.AlarmNameCounter + label.length } := by
  induction label with
  | nil =>
    intro _ fuel w cr rest hfuel hc hlen hcr hrx
    obtain ⟨f, rfl⟩ : ∃ f, fuel = f + 1 := ⟨fuel - 1, by simp at hfuel; omega⟩
    have hc30 : w.AlarmNameCounter < 30 := by simpa using hc
    have hget : ((w.AlarmName.set w.AlarmNameCounter (cr % 256)).getD w.AlarmNameCounter 0)
        = 13 := by
      simp [List.getElem?_set, hlen, hc30, hcr]
    simp only [List.nil_append] at hrx
    simp only [SetAlarm.nameLoop, hc30, if_true, UART_u16Receive, hrx, hget]
    simp [storeFrom]
  | cons b bs ih =>
    intro hall fuel w cr rest hfuel hc hlen hcr hrx
    obtain ⟨f, rfl⟩ : ∃ f, fuel = f + 1 := ⟨fuel - 1, by simp at hfuel; omega⟩
    have hc30 : w.AlarmNameCounter < 30 := by simp at hc; omega
    have hb : b % 256 ≠ 13 := hall b (by simp)
    have hget : ((w.AlarmName.set w.AlarmNameCounter (b % 256)).getD w.AlarmNameCounter 0)
        = b % 256 := by
      simp [List.getElem?_set, hlen, hc30]
    have hih := ih (fun x hx => hall x (by simp [hx])) f
      { w with
        rx := bs ++ cr :: rest
        AlarmName := w.AlarmName.set w.AlarmNameCounter (b % 256)
        AlarmNameCounter := w.AlarmNameCounter + 1 } cr rest
      (by simp at hfuel; omega) (by simp at hc ⊢; omega) (by simpa using hlen) hcr rfl
    simp only [List.cons_append] at hrx
    simp only [SetAlarm.nameLoop, hc30, if_true, UART_u16Receive, hrx, hget, hb, if_false]
    rw [hih]
    simp [storeFrom, Nat.add_assoc, Nat.add_comm 1]

/-- The label loop on a label that fills the buffer: the loop ends when the
counter reaches 30, without reading further. -/
theorem SetAlarm_nameLoop_full (label : List Nat) :
    (∀ b ∈ label, b % 256 ≠ 13) →
    ∀ (fuel : Nat) (w : World) (rest : List Nat),
      label.length ≤ fuel → w.AlarmNameCounter + label.length = 30 →
      w.AlarmName.length = 30 → w.rx = label ++ rest →
      SetAlarm.nameLoop fuel w
        = .done () { w with
            rx := rest
            AlarmName := storeFrom w.AlarmName w.AlarmNameCounter label
            AlarmNameCounter := w.AlarmNameCounter + label.length } := by
  induction label with
  | nil =>
    intro _ fuel w rest _ hc _ hrx
    have hc30 : ¬ w.AlarmNameCounter < 30 := by simp at hc; omega
    simp only [List.nil_append] at hrx
    cases fuel with
    | zero => simp [SetAlarm.nameLoop, storeFrom, ← hrx]
    | succ f => simp [SetAlarm.nameLoop, hc30, storeFrom, ← hrx]
  | cons b bs ih =>
    intro hall fuel w rest hfuel hc hlen hrx
    obtain ⟨f, rfl⟩ : ∃ f, fuel = f + 1 := ⟨fuel - 1, by simp at hfuel; omega⟩
    have hc30 : w.AlarmNameCounter < 30 := by simp at hc; omega
    have hb : b % 256 ≠ 13 := hall b (by simp)
    have hget : ((w.AlarmName.set w.AlarmNameCounter (b % 256)).getD w.AlarmNameCounter 0)
        = b % 256 := by
      simp [List.getElem?_set, hlen, hc30]
    have hih := ih (fun x hx => hall x (by simp [hx])) f
      { w with
        rx := bs ++ rest
        AlarmName := w.AlarmName.set w.AlarmNameCounter (b % 256)
        AlarmNameCounter := w.AlarmNameCounter + 1 } rest
      (by simp at hfuel; omega) (by simp at hc ⊢; omega) (by simpa using hlen) rfl
    simp only [List.cons_append] at hrx
    simp only [SetAlarm.nameLoop, hc30, if_true, UART_u16Receive, hrx, hget, hb, if_false]
    rw [hih]
    simp [storeFrom, Nat.add_assoc, Nat.add_comm 1]

/-- The label loop of `SetAlarm` on the words typed for a label. -/
theorem SetAlarm_nameLoop_keys (label : List Nat) (w : World) (rest : List Nat)
    (hall : ∀ b ∈ label, b % 256 ≠ 13) (hlabel : label.length ≤ 28)
    (hc : w.AlarmNameCounter = 2) (hlen : w.AlarmName.length = 30)
    (hrx : w.rx = labelKeys label ++ rest) :
    SetAlarm.nameLoop 28 w
      = .done () { w with
          rx := rest
          AlarmName := storeFrom w.AlarmName 2 (labelKeys label)
          AlarmNameCounter := 2 + label.length } := by
  by_cases h28 : label.length < 28
  · simp only [labelKeys, h28, if_true] at hrx ⊢
    have h := SetAlarm_nameLoop_label label hall 28 w 13 rest h28 (by omega) hlen
      (by decide) (by simpa [List.append_assoc] using hrx)
    rw [hc] at h
    exact h
  · simp only [labelKeys, h28, if_false] at hrx ⊢
    have h := SetAlarm_nameLoop_full label hall 28 w rest (by omega) (by omega) hlen hrx
    rw [hc] at h
    exact h

/-- `CalcAlarm` with the eight words of a time text on the line. -/
theorem CalcAlarm_text (n : Nat) (w : World) (a0 a1 a2 a3 a4 a5 a6 a7 : Nat)
    (rest : List Nat) (hrx : w.rx = [a0, a1, a2, a3, a4, a5, a6, a7] ++ rest) :
    CalcAlarm n w
      = .done () { w with
          rx := rest
          AlarmTime :=
            setCell (setCell (setCell w.AlarmTime (n - 48) 0
              (twoDigits 48 (a0 % 256) (a1 % 256))) (n - 48) 1
              (twoDigits 48 (a3 % 256) (a4 % 256))) (n - 48) 2
              (twoDigits 48 (a6 % 256) (a7 % 256)) } := by
  have h := receiveLoop_append 8 [a0, a1, a2, a3, a4, a5, a6, a7] 0 (List.replicate 8 0) w
    rest (by simp) hrx
  have h2 := storeFrom_replicate [a0, a1, a2, a3, a4, a5, a6, a7]
  simp only [List.length_cons, List.length_nil] at h h2
  rw [h2] at h
  simp only [CalcAlarm]
  rw [h]
  simp

/-- The three stores of `CalcAlarm` into a row of a 5 by 3 table replace that
row. -/
theorem setCell_row (t : List (List Nat)) (r a b c : Nat) (hr : r < t.length)
    (hrow : ∀ row ∈ t, row.length = 3) :
    setCell (setCell (setCell t r 0 a) r 1 b) r 2 c = t.set r [a, b, c] := by
  have hmem : t.getD r [] ∈ t := by
    simp [List.getD_eq_getElem?_getD, List.getElem?_eq_getElem hr]
  have h3 := hrow _ hmem
  obtain ⟨x, y, z, hxyz⟩ : ∃ x y z, t.getD r [] = [x, y, z] := by
    match h : t.getD r [], h3 with
    | [x, y, z], _ => exact ⟨x, y, z, rfl⟩
  have hget : ∀ (row : List Nat), (t.set r row).getD r [] = row := by
    intro row
    simp [List.getElem?_set, hr]
  simp only [setCell, hxyz, List.set_cons_zero, hget, List.set_set, List.set_cons_succ]

theorem cell_set_row (t : List (List Nat)) (r i j : Nat) (row : List Nat)
    (hr : r < t.length) :
    cell (t.set r row) i j = if i = r then row.getD j 0 else cell t i j := by
  unfold cell
  by_cases h : i = r
  · subst h
    simp [List.getElem?_set, hr]
  · have h2 : r ≠ i := fun e => h e.symm
    simp [List.getElem?_set, h, h2]

/-- A table with at most one non-empty row: the pass notifies that row when it
is due, and nothing otherwise. -/
theorem notified_single (t : List (List Nat)) (now : DS1307_Config_t) (r : Nat)
    (hr : r < 5) (hothers : ∀ i, i < 5 → i ≠ r → cell t i 0 = 255) :
    notified t now 5 0 = if slotDue t now r then [r + 1] else [] := by
  have hnd : ∀ i, i < 5 → i ≠ r → ¬ slotDue t now i :=
    fun i hi hne h => h.1 (hothers i hi hne)
  by_cases hd : slotDue t now r
  · interval_cases r
    · simp [notified, hd, hnd 2, hnd 3, hnd 4]
    · simp [notified, hd, hnd 0, hnd 3, hnd 4]
    · simp [notified, hd, hnd 0, hnd 1, hnd 4]
    · simp [notified, hd, hnd 0, hnd 1, hnd 2]
    · simp [notified, hd, hnd 0, hnd 1, hnd 2, hnd 3]
  · interval_cases r
    · simp [notified, hd, hnd 1, hnd 2, hnd 3, hnd 4]
    · simp [notified, hd, hnd 0, hnd 2, hnd 3, hnd 4]
    · simp [notified, hd, hnd 0, hnd 1, hnd 3, hnd 4]
    · simp [notified, hd, hnd 0, hnd 1, hnd 2, hnd 4]
    · simp [notified, hd, hnd 0, hnd 1, hnd 2, hnd 3]

/-- The label loop only takes words from the line. -/
theorem SetAlarm_nameLoop_rx : ∀ (fuel : Nat) (w : World),
    (SetAlarm.nameLoop fuel w).world.rx.length ≤ w.rx.length := by
  intro fuel
  induction fuel with
  | zero => intro w; simp [SetAlarm.nameLoop, Run.world]
  | succ fuel ih =>
    intro w
    by_cases hc : w.AlarmNameCounter < 30
    · cases hrx : w.rx with
      | nil => simp [SetAlarm.nameLoop, hc, UART_u16Receive, hrx, Run.world]
      | cons x xs =>
        simp only [SetAlarm.nameLoop, hc, if_true, UART_u16Receive, hrx]
        split
        · simp [Run.world]
        · refine le_trans (ih _) ?_
          simp
    · simp [SetAlarm.nameLoop, hc, Run.world]

/-- The depth bound of `SetAlarm.go` plays no part once it exceeds the number of
words on the line: every self-call comes after at least one word was taken. -/
theorem SetAlarm_go_fuel : ∀ (fuel1 fuel2 : Nat) (w : World),
    w.rx.length < fuel1 → w.rx.length < fuel2 →
    SetAlarm.go fuel1 w = SetAlarm.go fuel2 w := by
  intro fuel1
  induction fuel1 with
  | zero => intro fuel2 w h; simp at h
  | succ f1 ih =>
    intro fuel2 w h1 h2
    obtain ⟨f2, rfl⟩ : ∃ f2, fuel2 = f2 + 1 := ⟨fuel2 - 1, by omega⟩
    cases hrx : w.rx with
    | nil => simp [SetAlarm.go, UART_u16Receive, hrx]
    | cons x xs =>
      have hlen := SetAlarm_nameLoop_rx 28 { w with rx := xs, AlarmNameCounter := 2 }
      simp only [SetAlarm.go, UART_u16Receive, hrx]
      cases hloop : SetAlarm.nameLoop 28 { w with rx := xs, AlarmNameCounter := 2 } with
      | blocked w2 => rfl
      | done u w2 =>
        rw [hloop] at hlen
        simp only [Run.world] at hlen
        simp only [hrx, List.length_cons] at h1 h2
        by_cases hch : x % 256 > 48 ∧ x % 256 < 54
        · simp only [hch, and_self, if_true]
        · simp only [hch, if_false]
          exact ih f2 w2 (by omega) (by omega)

/-- `SetAlarm` on a valid slot choice, the words of a label and a time text: the
text is decoded into the chosen row and everything typed is consumed. -/
theorem SetAlarm_stores (w : World) (k : Nat) (label : List Nat)
    (a0 a1 a2 a3 a4 a5 a6 a7 : Nat) (rest : List Nat)
    (hw : w.sized) (hk : 1 ≤ k ∧ k ≤ 5)
    (hlabel : label.length ≤ 28 ∧ ∀ b ∈ label, b % 256 ≠ 13)
    (hrx : w.rx = (48 + k) :: (labelKeys label ++ ([a0, a1, a2, a3, a4, a5, a6, a7] ++ rest))) :
    SetAlarm w
      = .done () { w with
          rx := rest
          AlarmName := storeFrom w.AlarmName 2 (labelKeys label)
          AlarmNameCounter := 2 + label.length
          AlarmTime := w.AlarmTime.set (k - 1)
            [twoDigits 48 (a0 % 256) (a1 % 256), twoDigits 48 (a3 % 256) (a4 % 256),
              twoDigits 48 (a6 % 256) (a7 % 256)] } := by
  obtain ⟨ht5, hrows, hname, -⟩ := hw
  have hchoose : (48 + k) % 256 = 48 + k := Nat.mod_eq_of_lt (by omega)
  have hloop := SetAlarm_nameLoop_keys label
    { w with rx := labelKeys label ++ ([a0, a1, a2, a3, a4, a5, a6, a7] ++ rest),
             AlarmNameCounter := 2 }
    ([a0, a1, a2, a3, a4, a5, a6, a7] ++ rest) hlabel.2 hlabel.1 rfl hname rfl
  have hcalc := CalcAlarm_text (48 + k - 1)
    { w with
      rx := [a0, a1, a2, a3, a4, a5, a6, a7] ++ rest
      AlarmName := storeFrom w.AlarmName 2 (labelKeys label)
      AlarmNameCounter := 2 + label.length } a0 a1 a2 a3 a4 a5 a6 a7 rest rfl
  have hidx : 48 + k - 1 - 48 = k - 1 := by omega
  have hrange : 48 + k > 48 ∧ 48 + k < 54 := by omega
  rw [hidx] at hcalc
  simp only [setCell_row w.AlarmTime (k - 1) _ _ _ (by omega) hrows] at hcalc
  simp only [SetAlarm, SetAlarm.go, hrx, List.length_cons, UART_u16Receive, hchoose]
  simp only [hloop, hrange, and_self, if_true]
  exact hcalc

/-- C5: starting from a table whose five slots are all empty, for every slot `k`
in `1..5`, every label the operator types (closed by Enter, or 28 bytes long)
and every time text `hh:mm:ss` with ASCII digits in its six digit positions
(the two separators being any bytes), `SetAlarm` stores the text in slot `k`, and
then `CompTime` with the reading `(H, M, S)` starts exactly one transmission,
the alarm frame with the alarm code in byte 0 and `k` in byte 1, when
`(H, M, S)` equals the decoded `(hh, mm, ss)`, and starts none when any field
differs. -/
theorem SetAlarm_then_CompTime (m : Macros) (w : World) (k : Nat) (label : List Nat)
    (h1 h2 m1 m2 s1 s2 c1 c2 : Nat) (rest : List Nat) (now : DS1307_Config_t)
    (hw : w.sized) (hempty : ∀ i, i < 5 → cell w.AlarmTime i 0 = 255)
    (hk : 1 ≤ k ∧ k ≤ 5)
    (hlabel : label.length ≤ 28 ∧ ∀ b ∈ label, b % 256 ≠ 13)
    (hdigits : h1 ≤ 9 ∧ h2 ≤ 9 ∧ m1 ≤ 9 ∧ m2 ≤ 9 ∧ s1 ≤ 9 ∧ s2 ≤ 9)
    (hrx : w.rx = (48 + k) :: (labelKeys label ++
      ([48 + h1, 48 + h2, c1, 48 + m1, 48 + m2, c2, 48 + s1, 48 + s2] ++ rest))) :
    ∃ w1, SetAlarm w = .done () w1 ∧ w1.rx = rest ∧ w1.spi = w.spi ∧
      cell w1.AlarmTime (k - 1) 0 = 10 * h1 + h2 ∧
      cell w1.AlarmTime (k - 1) 1 = 10 * m1 + m2 ∧
      cell w1.AlarmTime (k - 1) 2 = 10 * s1 + s2 ∧
      ((now.Hours = 10 * h1 + h2 ∧ now.Minutes = 10 * m1 + m2 ∧ now.Seconds = 10 * s1 + s2) →
        ∃ f, (CompTime m now w1).spi = w1.spi ++ [f] ∧
          f.data.getD 0 0 = m.ALARMCODE % 256 ∧ f.data.getD 1 0 = k) ∧
      (¬ (now.Hours = 10 * h1 + h2 ∧ now.Minutes = 10 * m1 + m2 ∧
          now.Seconds = 10 * s1 + s2) →
        (CompTime m now w1).spi = w1.spi) := by
  obtain ⟨dh1, dh2, dm1, dm2, ds1, ds2⟩ := hdigits
  have hset := SetAlarm_stores w k label (48 + h1) (48 + h2) c1 (48 + m1) (48 + m2) c2
    (48 + s1) (48 + s2) rest hw hk hlabel hrx
  rw [twoDigits_digits h1 h2 dh1 dh2, twoDigits_digits m1 m2 dm1 dm2,
    twoDigits_digits s1 s2 ds1 ds2] at hset
  obtain ⟨ht5, hrows, hname, -⟩ := hw
  have hr : k - 1 < w.AlarmTime.length := by omega
  refine ⟨_, hset, rfl, rfl, ?_, ?_, ?_, ?_, ?_⟩
  · simp [cell_set_row _ _ _ _ _ hr]
  · simp [cell_set_row _ _ _ _ _ hr]
  · simp [cell_set_row _ _ _ _ _ hr]
  · intro hnow
    have hdue : slotDue (w.AlarmTime.set (k - 1)
        [10 * h1 + h2, 10 * m1 + m2, 10 * s1 + s2]) now (k - 1) := by
      refine ⟨?_, ?_, ?_, ?_⟩ <;> simp [cell_set_row _ _ _ _ _ hr, hnow]
      omega
    have hnot := notified_single (w.AlarmTime.set (k - 1)
        [10 * h1 + h2, 10 * m1 + m2, 10 * s1 + s2]) now (k - 1) (by omega)
      (by
        intro i hi hne
        rw [cell_set_row _ _ _ _ _ hr]
        simp [hne, hempty i hi])
    rw [if_pos hdue] at hnot
    have hk1 : k - 1 + 1 = k := by omega
    have hbytes := alarmFrame_bytes m (storeFrom w.AlarmName 2 (labelKeys label)) k
      (by rw [storeFrom_length]; exact hname)
    refine ⟨alarmFrame m (storeFrom w.AlarmName 2 (labelKeys label)) k, ?_, hbytes.1, hbytes.2.1⟩
    rw [CompTime_spi]
    simp only [hnot, hk1, List.map_cons, List.map_nil]
  · intro hnow
    have hdue : ¬ slotDue (w.AlarmTime.set (k - 1)
        [10 * h1 + h2, 10 * m1 + m2, 10 * s1 + s2]) now (k - 1) := by
      rintro ⟨-, e0, e1, e2⟩
      apply hnow
      simp [cell_set_row _ _ _ _ _ hr] at e0 e1 e2
      exact ⟨e0.symm, e1.symm, e2.symm⟩
    have hnot := notified_single (w.AlarmTime.set (k - 1)
        [10 * h1 + h2, 10 * m1 + m2, 10 * s1 + s2]) now (k - 1) (by omega)
      (by
        intro i hi hne
        rw [cell_set_row _ _ _ _ _ hr]
        simp [hne, hempty i hi])
    rw [if_neg hdue] at hnot
    rw [CompTime_spi]
    simp only [hnot, List.map_nil, List.append_nil]

/-- C5 at a concrete input: slot 3 set to `07:30:00` (label `AB`) from the start
state; the text is stored in row 2. -/
theorem SetAlarm_then_CompTime_witness :
    ∃ w1, SetAlarm (startWorld [51, 65, 66, 13, 48, 55, 58, 51, 48, 58, 48, 48]) = .done () w1 ∧
      w1.rx = [] ∧ w1.spi = (startWorld [51, 65, 66, 13, 48, 55, 58, 51, 48, 58, 48, 48]).spi ∧
      cell w1.AlarmTime (3 - 1) 0 = 10 * 0 + 7 ∧
      cell w1.AlarmTime (3 - 1) 1 = 10 * 3 + 0 ∧
      cell w1.AlarmTime (3 - 1) 2 = 10 * 0 + 0 ∧
      (((⟨0, 30, 7, .DS1307_SATURDAY, 8, 23, 30⟩ : DS1307_Config_t).Hours = 10 * 0 + 7 ∧
          (⟨0, 30, 7, .DS1307_SATURDAY, 8, 23, 30⟩ : DS1307_Config_t).Minutes = 10 * 3 + 0 ∧
          (⟨0, 30, 7, .DS1307_SATURDAY, 8, 23, 30⟩ : DS1307_Config_t).Seconds = 10 * 0 + 0) →
        ∃ f, (CompTime sampleMacros ⟨0, 30, 7, .DS1307_SATURDAY, 8, 23, 30⟩ w1).spi
            = w1.spi ++ [f] ∧
          f.data.getD 0 0 = sampleMacros.ALARMCODE % 256 ∧ f.data.getD 1 0 = 3) ∧
      (¬ ((⟨0, 30, 7, .DS1307_SATURDAY, 8, 23, 30⟩ : DS1307_Config_t).Hours = 10 * 0 + 7 ∧
          (⟨0, 30, 7, .DS1307_SATURDAY, 8, 23, 30⟩ : DS1307_Config_t).Minutes = 10 * 3 + 0 ∧
          (⟨0, 30, 7, .DS1307_SATURDAY, 8, 23, 30⟩ : DS1307_Config_t).Seconds = 10 * 0 + 0) →
        (CompTime sampleMacros ⟨0, 30, 7, .DS1307_SATURDAY, 8, 23, 30⟩ w1).spi = w1.spi) :=
  SetAlarm_then_CompTime sampleMacros
    (startWorld [51, 65, 66, 13, 48, 55, 58, 51, 48, 58, 48, 48]) 3 [65, 66]
    0 7 3 0 0 0 58 58 [] ⟨0, 30, 7, .DS1307_SATURDAY, 8, 23, 30⟩
    (by decide) (by decide) (by decide) (by decide) (by decide) rfl

/-- C6: for every alarm table and every clock reading (a reading whose hour byte
is 0xFF included), the transmissions one `CompTime` pass starts are alarm frames
for slot numbers in `1..5`, and none of them is for a slot whose hour field
holds the empty marker 0xFF, whatever that slot's minute and second bytes. -/
theorem CompTime_never_notifies_empty_slot (m : Macros) (now : DS1307_Config_t) (w : World)
    (hlen : w.AlarmName.length = 30) :
    ∃ fs, (CompTime m now w).spi = w.spi ++ fs ∧
      (∀ f ∈ fs, f.data.getD 0 0 = m.ALARMCODE % 256 ∧
        1 ≤ f.data.getD 1 0 ∧ f.data.getD 1 0 ≤ 5) ∧
      (∀ i, i < 5 → cell w.AlarmTime i 0 = 0xFF → ∀ f ∈ fs, f.data.getD 1 0 ≠ i + 1) := by
  refine ⟨_, CompTime_spi m now w, ?_, ?_⟩
  · intro f hf
    obtain ⟨k, hk, rfl⟩ := List.mem_map.mp hf
    have hb := alarmFrame_bytes m w.AlarmName k hlen
    have hd := notified_due w.AlarmTime now 5 0 k hk
    rw [hb.1, hb.2.1]
    exact ⟨rfl, by omega, hd.2.1⟩
  · intro i _ hempty f hf hslot
    obtain ⟨k, hk, rfl⟩ := List.mem_map.mp hf
    have hb := alarmFrame_bytes m w.AlarmName k hlen
    have hd := notified_due w.AlarmTime now 5 0 k hk
    rw [hb.2.1] at hslot
    subst hslot
    exact hd.2.2.1 (by simpa using hempty)

/-- C6 at a concrete input: the reading is `255:255:255` and slot 1 is the empty
row `[255, 255, 255]`, which agrees with the reading in all three fields. -/
theorem CompTime_never_notifies_empty_slot_witness :
    ∃ fs, (CompTime sampleMacros ⟨255, 255, 255, .DS1307_SATURDAY, 8, 23, 30⟩
        (startWorld [])).spi = (startWorld []).spi ++ fs ∧
      (∀ f ∈ fs, f.data.getD 0 0 = sampleMacros.ALARMCODE % 256 ∧
        1 ≤ f.data.getD 1 0 ∧ f.data.getD 1 0 ≤ 5) ∧
      (∀ i, i < 5 → cell (startWorld []).AlarmTime i 0 = 0xFF →
        ∀ f ∈ fs, f.data.getD 1 0 ≠ i + 1) :=
  CompTime_never_notifies_empty_slot sampleMacros ⟨255, 255, 255, .DS1307_SATURDAY, 8, 23, 30⟩
    (startWorld []) (by decide)

/-- C7: for every alarm table and every clock reading, each transmission one
`CompTime` pass starts is the alarm frame of a slot `k` in `1..5` that is
non-empty and whose hour, minute and second all equal the reading; hence a slot
that differs from the reading in some field is never notified, whatever the
other slots hold and whether or not an earlier slot of the pass matched. -/
theorem CompTime_notifies_only_due_slots (m : Macros) (now : DS1307_Config_t) (w : World)
    (hlen : w.AlarmName.length = 30) :
    ∃ fs, (CompTime m now w).spi = w.spi ++ fs ∧
      (∀ f ∈ fs, ∃ k, 1 ≤ k ∧ k ≤ 5 ∧ f.data.getD 0 0 = m.ALARMCODE % 256 ∧
        f.data.getD 1 0 = k ∧ f.callback = .SPI1_ISR ∧
        cell w.AlarmTime (k - 1) 0 ≠ 0xFF ∧ cell w.AlarmTime (k - 1) 0 = now.Hours ∧
        cell w.AlarmTime (k - 1) 1 = now.Minutes ∧
        cell w.AlarmTime (k - 1) 2 = now.Seconds) ∧
      (∀ i, i < 5 →
        (cell w.AlarmTime i 0 ≠ now.Hours ∨ cell w.AlarmTime i 1 ≠ now.Minutes ∨
          cell w.AlarmTime i 2 ≠ now.Seconds) →
        ∀ f ∈ fs, f.data.getD 1 0 ≠ i + 1) := by
  refine ⟨_, CompTime_spi m now w, ?_, ?_⟩
  · intro f hf
    obtain ⟨k, hk, rfl⟩ := List.mem_map.mp hf
    have hb := alarmFrame_bytes m w.AlarmName k hlen
    have hd := notified_due w.AlarmTime now 5 0 k hk
    exact ⟨k, by omega, hd.2.1, hb.1, hb.2.1, hb.2.2.2.2, hd.2.2.1, hd.2.2.2.1,
      hd.2.2.2.2.1, hd.2.2.2.2.2⟩
  · intro i _ hdiff f hf hslot
    obtain ⟨k, hk, rfl⟩ := List.mem_map.mp hf
    have hb := alarmFrame_bytes m w.AlarmName k hlen
    have hd := notified_due w.AlarmTime now 5 0 k hk
    rw [hb.2.1] at hslot
    subst hslot
    obtain ⟨-, -, -, e0, e1, e2⟩ := hd
    simp only [Nat.add_sub_cancel] at e0 e1 e2
    rcases hdiff with h | h | h
    · exact h e0
    · exact h e1
    · exact h e2

/-- C7 at a concrete input: slot 1 holds `07:30:00`, slot 3 holds `07:30:01`
and the reading is `07:30:00`. -/
theorem CompTime_notifies_only_due_slots_witness :
    ∃ fs, (CompTime sampleMacros ⟨0, 30, 7, .DS1307_SATURDAY, 8, 23, 30⟩
        { startWorld [] with
          AlarmTime := [[7, 30, 0], [255, 255, 255], [7, 30, 1], [255, 255, 255],
            [255, 255, 255]] }).spi = (startWorld []).spi ++ fs ∧
      (∀ f ∈ fs, ∃ k, 1 ≤ k ∧ k ≤ 5 ∧ f.data.getD 0 0 = sampleMacros.ALARMCODE % 256 ∧
        f.data.getD 1 0 = k ∧ f.callback = .SPI1_ISR ∧
        cell [[7, 30, 0], [255, 255, 255], [7, 30, 1], [255, 255, 255], [255, 255, 255]]
          (k - 1) 0 ≠ 0xFF ∧
        cell [[7, 30, 0], [255, 255, 255], [7, 30, 1], [255, 255, 255], [255, 255, 255]]
          (k - 1) 0 = 7 ∧
        cell [[7, 30, 0], [255, 255, 255], [7, 30, 1], [255, 255, 255], [255, 255, 255]]
          (k - 1) 1 = 30 ∧
        cell [[7, 30, 0], [255, 255, 255], [7, 30, 1], [255, 255, 255], [255, 255, 255]]
          (k - 1) 2 = 0) ∧
      (∀ i, i < 5 →
        (cell [[7, 30, 0], [255, 255, 255], [7, 30, 1], [255, 255, 255], [255, 255, 255]]
            i 0 ≠ 7 ∨
          cell [[7, 30, 0], [255, 255, 255], [7, 30, 1], [255, 255, 255], [255, 255, 255]]
            i 1 ≠ 30 ∨
          cell [[7, 30, 0], [255, 255, 255], [7, 30, 1], [255, 255, 255], [255, 255, 255]]
            i 2 ≠ 0) →
        ∀ f ∈ fs, f.data.getD 1 0 ≠ i + 1) :=
  CompTime_notifies_only_due_slots sampleMacros ⟨0, 30, 7, .DS1307_SATURDAY, 8, 23, 30⟩
    { startWorld [] with
      AlarmTime := [[7, 30, 0], [255, 255, 255], [7, 30, 1], [255, 255, 255],
        [255, 255, 255]] } (by decide)

/-- C8, the code at the failing input: slots 1 and 2 both hold `07:30:00` and the
reading is `07:30:00`, yet the pass starts a single transmission, the frame of
slot 1; slot 2 is passed over because `AlarmName[1] = ++Counter1` advances the
loop counter. -/
theorem CompTime_passes_over_next_slot :
    ((CompTime sampleMacros ⟨0, 30, 7, .DS1307_SATURDAY, 8, 23, 30⟩
        { startWorld [] with
          AlarmTime := [[7, 30, 0], [7, 30, 0], [255, 255, 255], [255, 255, 255],
            [255, 255, 255]] }).spi.map (fun f => f.data.take 2))
      = [[sampleMacros.ALARMCODE, 1]] := by
  decide

/-! ## Calendar codec -/

theorem abbreviations_eq :
    abbreviations
      = [([83, 65, 84], .DS1307_SATURDAY), ([83, 85, 78], .DS1307_SUNDAY),
         ([77, 79, 78], .DS1307_MONDAY), ([84, 85, 69], .DS1307_TUESDAY),
         ([87, 69, 68], .DS1307_WEDNESDAY), ([84, 72, 85], .DS1307_THURSDAY),
         ([70, 82, 73], .DS1307_FRIDAY)] := by
  decide

/-- A byte equals an upper-case letter ignoring case exactly when it is that
letter or its lower-case form. -/
theorem upperCase_eq_iff (b c : Nat) (h1 : 65 ≤ c) (h2 : c ≤ 90) :
    c = upperCase b ↔ (c = b ∨ c + 32 = b) := by
  unfold upperCase
  split <;> omega

theorem twoDigits_ascii (d0 d1 : Nat) (h0 : d0 ≤ 9) (h1 : d1 ≤ 9) :
    twoDigits ZERO_ASCII (48 + d0) (48 + d1) = 10 * d0 + d1 := by
  unfold twoDigits ZERO_ASCII
  omega

/-- `FindDay` returns the day of the abbreviation the three letters spell,
ignoring case, and `WRONG_DAY` when they spell none. -/
theorem FindDay_spec (m : Macros) (buf : List Nat) :
    (∀ p ∈ abbreviations,
        sameLetters p.1 (buf.getD m.FIRST_LETTER_OF_DAY 0) (buf.getD m.SECOND_LETTER_OF_DAY 0)
          (buf.getD m.THIRD_LETTER_OF_DAY 0) → FindDay m buf = p.2) ∧
      ((∀ p ∈ abbreviations,
        ¬ sameLetters p.1 (buf.getD m.FIRST_LETTER_OF_DAY 0)
          (buf.getD m.SECOND_LETTER_OF_DAY 0) (buf.getD m.THIRD_LETTER_OF_DAY 0)) →
        FindDay m buf = .WRONG_DAY) := by
  unfold FindDay
  generalize buf.getD m.FIRST_LETTER_OF_DAY 0 = l1
  generalize buf.getD m.SECOND_LETTER_OF_DAY 0 = l2
  generalize buf.getD m.THIRD_LETTER_OF_DAY 0 = l3
  simp only [abbreviations_eq, List.forall_mem_cons, List.not_mem_nil, sameLetters,
    List.cons.injEq, and_true, IsEmpty.forall_iff, implies_true]
  simp only [upperCase_eq_iff l1 _ (by decide : 65 ≤ 83) (by decide : 83 ≤ 90),
    upperCase_eq_iff l1 _ (by decide : 65 ≤ 77) (by decide : 77 ≤ 90),
    upperCase_eq_iff l1 _ (by decide : 65 ≤ 84) (by decide : 84 ≤ 90),
    upperCase_eq_iff l1 _ (by decide : 65 ≤ 87) (by decide : 87 ≤ 90),
    upperCase_eq_iff l1 _ (by decide : 65 ≤ 70) (by decide : 70 ≤ 90),
    upperCase_eq_iff l2 _ (by decide : 65 ≤ 65) (by decide : 65 ≤ 90),
    upperCase_eq_iff l2 _ (by decide : 65 ≤ 85) (by decide : 85 ≤ 90),
    upperCase_eq_iff l2 _ (by decide : 65 ≤ 79) (by decide : 79 ≤ 90),
    upperCase_eq_iff l2 _ (by decide : 65 ≤ 69) (by decide : 69 ≤ 90),
    upperCase_eq_iff l2 _ (by decide : 65 ≤ 72) (by decide : 72 ≤ 90),
    upperCase_eq_iff l2 _ (by decide : 65 ≤ 82) (by decide : 82 ≤ 90),
    upperCase_eq_iff l3 _ (by decide : 65 ≤ 84) (by decide : 84 ≤ 90),
    upperCase_eq_iff l3 _ (by decide : 65 ≤ 78) (by decide : 78 ≤ 90),
    upperCase_eq_iff l3 _ (by decide : 65 ≤ 69) (by decide : 69 ≤ 90),
    upperCase_eq_iff l3 _ (by decide : 65 ≤ 68) (by decide : 68 ≤ 90),
    upperCase_eq_iff l3 _ (by decide : 65 ≤ 85) (by decide : 85 ≤ 90),
    upperCase_eq_iff l3 _ (by decide : 65 ≤ 73) (by decide : 73 ≤ 90)]
  constructor
  · refine ⟨?_, ?_, ?_, ?_, ?_, ?_, ?_⟩ <;>
    · rintro ⟨h1, h2, h3⟩
      rcases h1 with h1 | h1 <;> rcases h2 with h2 | h2 <;> rcases h3 with h3 | h3 <;>
        subst h1 <;> subst h2 <;> subst h3 <;> decide
  · rintro ⟨n1, n2, n3, n4, n5, n6, n7⟩
    simp only [n1, n2, n3, n4, n5, n6, n7, if_false]

/-- `FindDay` returns `WRONG_DAY` exactly when the letters spell no abbreviation. -/
theorem FindDay_wrong_iff (m : Macros) (buf : List Nat) :
    FindDay m buf = .WRONG_DAY ↔
      ∀ p ∈ abbreviations,
        ¬ sameLetters p.1 (buf.getD m.FIRST_LETTER_OF_DAY 0)
          (buf.getD m.SECOND_LETTER_OF_DAY 0) (buf.getD m.THIRD_LETTER_OF_DAY 0) := by
  constructor
  · intro hwrong p hp hsame
    have hday := (FindDay_spec m buf).1 p hp hsame
    have hne : ∀ q ∈ abbreviations, q.2 ≠ DS1307_DAYS_t.WRONG_DAY := by decide
    exact hne p hp (by rw [← hday]; exact hwrong)
  · exact (FindDay_spec m buf).2

/-- `ReadDateTime_FromPC` with a full text on the line: the text is taken, decoded
into `Date_Time_RTC`, and the verdict is that of `Check_Calender`. -/
theorem ReadDateTime_FromPC_run (m : Macros) (w : World) (text rest : List Nat)
    (hlen : text.length = m.CALENDER_FORMAT) (hrx : w.rx = text ++ rest) :
    ReadDateTime_FromPC m w
      = .done
          (Check_Calender m
            { Calculate_Calender w.Date_Time_RTC (received text) with
              Day := FindDay m (received text) })
          { w with
            rx := rest
            Date_Time_RTC :=
              { Calculate_Calender w.Date_Time_RTC (received text) with
                Day := FindDay m (received text) } } := by
  have h := receiveLoop_append m.CALENDER_FORMAT text 0
    (List.replicate m.CALENDER_FORMAT 0) w rest (by omega) hrx
  have h2 := storeFrom_replicate text
  rw [hlen] at h h2
  rw [h2] at h
  simp only [ReadDateTime_FromPC, h, received]
  cases hc : Check_Calender m
      { Calculate_Calender w.Date_Time_RTC (List.map (· % 256) text) with
        Day := FindDay m (List.map (· % 256) text) } <;> simp [hc]

/-- C9: with a full calendar text on the line, `ReadDateTime_FromPC` returns `NOK`
iff, for the decoded text, date > `MAX_DATE` or month > `MAX_MONTH` or
year > `MAX_YEAR` or hour > 23 or minute > 59 or second > 59 or the three weekday
letters spell none of the seven abbreviations, and returns `OK` in every other
case; in particular a text whose weekday letters are `XXX` is rejected whatever
its other fields, and a text whose hour field is `25` is rejected. -/
theorem ReadDateTime_FromPC_verdict (m : Macros) (w : World) (text rest : List Nat)
    (hlen : text.length = m.CALENDER_FORMAT) (hrx : w.rx = text ++ rest) :
    ∃ e dt, ReadDateTime_FromPC m w = .done e { w with rx := rest, Date_Time_RTC := dt } ∧
      dt = { Calculate_Calender w.Date_Time_RTC (received text) with
             Day := FindDay m (received text) } ∧
      (e = .NOK ↔
        (dt.Date > m.MAX_DATE ∨ dt.Month > m.MAX_MONTH ∨ dt.Year > m.MAX_YEAR ∨
          dt.Hours > 23 ∨ dt.Minutes > 59 ∨ dt.Seconds > 59 ∨
          ∀ p ∈ abbreviations,
            ¬ sameLetters p.1 ((received text).getD m.FIRST_LETTER_OF_DAY 0)
              ((received text).getD m.SECOND_LETTER_OF_DAY 0)
              ((received text).getD m.THIRD_LETTER_OF_DAY 0))) ∧
      (e = .OK ↔
        (dt.Date ≤ m.MAX_DATE ∧ dt.Month ≤ m.MAX_MONTH ∧ dt.Year ≤ m.MAX_YEAR ∧
          dt.Hours ≤ 23 ∧ dt.Minutes ≤ 59 ∧ dt.Seconds ≤ 59 ∧
          ∃ p ∈ abbreviations,
            sameLetters p.1 ((received text).getD m.FIRST_LETTER_OF_DAY 0)
              ((received text).getD m.SECOND_LETTER_OF_DAY 0)
              ((received text).getD m.THIRD_LETTER_OF_DAY 0))) ∧
      (((received text).getD m.FIRST_LETTER_OF_DAY 0 = 88 ∧
          (received text).getD m.SECOND_LETTER_OF_DAY 0 = 88 ∧
          (received text).getD m.THIRD_LETTER_OF_DAY 0 = 88) → e = .NOK) ∧
      (((received text).getD 15 0 = 50 ∧ (received text).getD 16 0 = 53) → e = .NOK) := by
  have hrun := ReadDateTime_FromPC_run m w text rest hlen hrx
  have hwrong := FindDay_wrong_iff m (received text)
  have hnok : Check_Calender m
        { Calculate_Calender w.Date_Time_RTC (received text) with
          Day := FindDay m (received text) } = .NOK ↔
      ((Calculate_Calender w.Date_Time_RTC (received text)).Date > m.MAX_DATE ∨
        (Calculate_Calender w.Date_Time_RTC (received text)).Month > m.MAX_MONTH ∨
        (Calculate_Calender w.Date_Time_RTC (received text)).Year > m.MAX_YEAR ∨
        (Calculate_Calender w.Date_Time_RTC (received text)).Hours > 23 ∨
        (Calculate_Calender w.Date_Time_RTC (received text)).Minutes > 59 ∨
        (Calculate_Calender w.Date_Time_RTC (received text)).Seconds > 59 ∨
        FindDay m (received text) = .WRONG_DAY) := by
    unfold Check_Calender
    simp only [MAX_HOURS, MAX_MINUTES, MAX_SECONDS]
    split
    · rename_i h
      constructor
      · intro _
        tauto
      · intro _
        rfl
    · rename_i h
      constructor
      · intro hc
        cases hc
      · intro hc
        exact absurd (by tauto) h
  refine ⟨_, _, hrun, rfl, ?_, ?_, ?_, ?_⟩
  · rw [hnok, hwrong]
  · have hok : ∀ e : Error_State_t, e = .OK ↔ ¬ e = .NOK := by
      intro e; cases e <;> simp
    rw [hok, hnok, hwrong]
    simp only [not_or, not_lt, not_forall, not_not, exists_prop]
  · rintro ⟨e1, e2, e3⟩
    rw [hnok, hwrong, e1, e2, e3]
    right; right; right; right; right; right
    decide
  · rintro ⟨e1, e2⟩
    rw [hnok]
    right; right; right; left
    show twoDigits ZERO_ASCII ((received text).getD 15 0) ((received text).getD 16 0) > 23
    rw [e1, e2]
    decide

/-- C9 at a concrete input: the 23-byte text `23-08-30 (SAT) 25:30:45`, whose hour
field is `25`, is taken from the line and rejected. -/
theorem ReadDateTime_FromPC_verdict_witness :
    ReadDateTime_FromPC sampleMacros
        (startWorld ("23-08-30 (SAT) 25:30:45".toList.map Char.toNat))
      = .done .NOK
          { startWorld ("23-08-30 (SAT) 25:30:45".toList.map Char.toNat) with
            rx := [], Date_Time_RTC := ⟨45, 30, 25, .DS1307_SATURDAY, 8, 23, 30⟩ } := by
  obtain ⟨e, dt, hrun, hdt, -, -, -, h25⟩ :=
    ReadDateTime_FromPC_verdict sampleMacros
      (startWorld ("23-08-30 (SAT) 25:30:45".toList.map Char.toNat))
      ("23-08-30 (SAT) 25:30:45".toList.map Char.toNat) [] (by decide) (by decide)
  have he : e = .NOK := h25 (by decide)
  have hd : dt = ⟨45, 30, 25, .DS1307_SATURDAY, 8, 23, 30⟩ := by rw [hdt]; decide
  rw [hrun, he, hd]

/-- C10: for every buffer whose year, month, date, hour, minute and second
positions (byte pairs at offsets 0, 3, 6, 15, 18, 21) hold ASCII digits `d0 d1`,
`Calculate_Calender` stores exactly `10*d0 + d1` in each field, a value in
`0..99`; and `FindDay` returns the day whose abbreviation among SAT, SUN, MON,
TUE, WED, THU, FRI equals the three weekday letters letter by letter ignoring
case (so `sAt` is Saturday), or `WRONG_DAY` when no abbreviation matches. -/
theorem Calculate_Calender_decodes (m : Macros) (rtc : DS1307_Config_t) (buf : List Nat)
    (y0 y1 mo0 mo1 d0 d1 h0 h1 mi0 mi1 s0 s1 : Nat)
    (hy : digitsAt buf 0 y0 y1) (hmo : digitsAt buf 3 mo0 mo1) (hd : digitsAt buf 6 d0 d1)
    (hh : digitsAt buf 15 h0 h1) (hmi : digitsAt buf 18 mi0 mi1)
    (hs : digitsAt buf 21 s0 s1) :
    ((Calculate_Calender rtc buf).Year = 10 * y0 + y1 ∧
        (Calculate_Calender rtc buf).Year ≤ 99) ∧
      ((Calculate_Calender rtc buf).Month = 10 * mo0 + mo1 ∧
        (Calculate_Calender rtc buf).Month ≤ 99) ∧
      ((Calculate_Calender rtc buf).Date = 10 * d0 + d1 ∧
        (Calculate_Calender rtc buf).Date ≤ 99) ∧
      ((Calculate_Calender rtc buf).Hours = 10 * h0 + h1 ∧
        (Calculate_Calender rtc buf).Hours ≤ 99) ∧
      ((Calculate_Calender rtc buf).Minutes = 10 * mi0 + mi1 ∧
        (Calculate_Calender rtc buf).Minutes ≤ 99) ∧
      ((Calculate_Calender rtc buf).Seconds = 10 * s0 + s1 ∧
        (Calculate_Calender rtc buf).Seconds ≤ 99) ∧
      (∀ p ∈ abbreviations,
        sameLetters p.1 (buf.getD m.FIRST_LETTER_OF_DAY 0) (buf.getD m.SECOND_LETTER_OF_DAY 0)
          (buf.getD m.THIRD_LETTER_OF_DAY 0) → FindDay m buf = p.2) ∧
      ((∀ p ∈ abbreviations,
        ¬ sameLetters p.1 (buf.getD m.FIRST_LETTER_OF_DAY 0)
          (buf.getD m.SECOND_LETTER_OF_DAY 0) (buf.getD m.THIRD_LETTER_OF_DAY 0)) →
        FindDay m buf = .WRONG_DAY) ∧
      ((buf.getD m.FIRST_LETTER_OF_DAY 0 = 115 ∧ buf.getD m.SECOND_LETTER_OF_DAY 0 = 65 ∧
          buf.getD m.THIRD_LETTER_OF_DAY 0 = 116) → FindDay m buf = .DS1307_SATURDAY) := by
  have field : ∀ (i a b : Nat), digitsAt buf i a b →
      twoDigits ZERO_ASCII (buf.getD i 0) (buf.getD (i + 1) 0) = 10 * a + b ∧
        twoDigits ZERO_ASCII (buf.getD i 0) (buf.getD (i + 1) 0) ≤ 99 := by
    rintro i a b ⟨e0, e1, ha, hb⟩
    rw [e0, e1, twoDigits_ascii a b ha hb]
    exact ⟨rfl, by omega⟩
  refine ⟨field 0 y0 y1 hy, field 3 mo0 mo1 hmo, field 6 d0 d1 hd, field 15 h0 h1 hh,
    field 18 mi0 mi1 hmi, field 21 s0 s1 hs, (FindDay_spec m buf).1, (FindDay_spec m buf).2, ?_⟩
  rintro ⟨e1, e2, e3⟩
  refine (FindDay_spec m buf).1 ([83, 65, 84], .DS1307_SATURDAY) (by decide) ?_
  rw [e1, e2, e3]
  decide

/-- C10 at a concrete input: the text `23-08-30 (sAt) 12:30:45` decodes to year
23, month 8, date 30, hour 12, minute 30, second 45 and Saturday. -/
theorem Calculate_Calender_decodes_witness :
    ((Calculate_Calender ⟨0, 0, 0, .WRONG_DAY, 0, 0, 0⟩
        ("23-08-30 (sAt) 12:30:45".toList.map Char.toNat)).Year = 10 * 2 + 3 ∧
      (Calculate_Calender ⟨0, 0, 0, .WRONG_DAY, 0, 0, 0⟩
        ("23-08-30 (sAt) 12:30:45".toList.map Char.toNat)).Hours = 10 * 1 + 2) ∧
      FindDay sampleMacros ("23-08-30 (sAt) 12:30:45".toList.map Char.toNat)
        = .DS1307_SATURDAY := by
  have h := Calculate_Calender_decodes sampleMacros ⟨0, 0, 0, .WRONG_DAY, 0, 0, 0⟩
    ("23-08-30 (sAt) 12:30:45".toList.map Char.toNat) 2 3 0 8 3 0 1 2 3 0 4 5
    (by decide) (by decide) (by decide) (by decide) (by decide) (by decide)
  exact ⟨⟨h.1.1, h.2.2.2.1.1⟩, h.2.2.2.2.2.2.2.2 (by decide)⟩

/-! ## The pass of `CompTime` slot by slot -/

/-- Which slots a pass notifies: row `j` (slot `j + 1`) is notified exactly when
it is due and the slot before it, slot `j`, is not notified in the pass. -/
theorem notified_mem_iff (t : List (List Nat)) (now : DS1307_Config_t) :
    ∀ (fuel Counter1 j : Nat), 5 ≤ Counter1 + fuel →
      (j + 1 ∈ notified t now fuel Counter1 ↔
        Counter1 ≤ j ∧ j < 5 ∧ slotDue t now j ∧ j ∉ notified t now fuel Counter1) := by
  intro fuel
  induction fuel with
  | zero =>
    intro c1 j hf
    simp only [notified, List.not_mem_nil, false_iff, not_and, not_false_eq_true]
    intro h1 h2
    omega
  | succ fuel ih =>
    intro c1 j hf
    by_cases hc : c1 < 5
    · by_cases hd : slotDue t now c1
      · have hrest := ih (c1 + 2) j (by omega)
        have hlow : ∀ k, k ∈ notified t now fuel (c1 + 2) → c1 + 2 < k :=
          fun k hk => (notified_due t now fuel (c1 + 2) k hk).1
        simp only [notified, hc, if_true, hd, List.mem_cons]
        constructor
        · rintro (h | h)
          · have hj : j = c1 := by omega
            subst hj
            refine ⟨le_refl _, hc, hd, ?_⟩
            rintro (h2 | h2)
            · omega
            · have := hlow _ h2; omega
          · obtain ⟨h1, h2, h3, h4⟩ := hrest.mp h
            refine ⟨by omega, h2, h3, ?_⟩
            rintro (h5 | h5)
            · omega
            · exact h4 h5
        · rintro ⟨h1, h2, h3, h4⟩
          by_cases hj : j = c1
          · left; omega
          · right
            have hj2 : j ≠ c1 + 1 := fun e => h4 (Or.inl e)
            exact hrest.mpr ⟨by omega, h2, h3, fun h5 => h4 (Or.inr h5)⟩
      · have hrest := ih (c1 + 1) j (by omega)
        have hlow : ∀ k, k ∈ notified t now fuel (c1 + 1) → c1 + 1 < k :=
          fun k hk => (notified_due t now fuel (c1 + 1) k hk).1
        simp only [notified, hc, if_true, hd, if_false]
        constructor
        · intro h
          obtain ⟨h1, h2, h3, h4⟩ := hrest.mp h
          exact ⟨by omega, h2, h3, h4⟩
        · rintro ⟨h1, h2, h3, h4⟩
          have hj : j ≠ c1 := by
            intro e
            subst e
            exact hd h3
          exact hrest.mpr ⟨by omega, h2, h3, h4⟩
    · simp only [notified, hc, if_false, List.not_mem_nil, false_iff, not_and,
        not_false_eq_true]
      intro h1 h2
      omega

/-- A pass notifies at most three slots. -/
theorem notified_length (t : List (List Nat)) (now : DS1307_Config_t) :
    ∀ (fuel Counter1 : Nat), (notified t now fuel Counter1).length ≤ (6 - Counter1) / 2 := by
  intro fuel
  induction fuel with
  | zero => intro c1; simp [notified]
  | succ fuel ih =>
    intro c1
    by_cases hc : c1 < 5
    · by_cases hd : slotDue t now c1
      · have := ih (c1 + 2)
        simp only [notified, hc, if_true, hd, List.length_cons]
        omega
      · have := ih (c1 + 1)
        simp only [notified, hc, if_true, hd, if_false]
        omega
    · simp [notified, hc]

/-- The slot bytes of the alarm frames of a list of slots are those slots. -/
theorem alarmFrame_slots (m : Macros) (AlarmName : List Nat) (hlen : AlarmName.length = 30)
    (ks : List Nat) :
    (ks.map (alarmFrame m AlarmName)).map (fun f => f.data.getD 1 0) = ks := by
  induction ks with
  | nil => rfl
  | cons k ks ih =>
    simp only [List.map_cons, ih, (alarmFrame_bytes m AlarmName k hlen).2.1]

/-- C18: for every `k` in `2..5`, every alarm table and every clock reading such
that slot `k-1` is empty or differs from the reading in some field and slot `k`
is non-empty and equals the reading in hour, minute and second, one `CompTime`
pass starts the alarm frame of slot `k`: alarm code in byte 0, `k` in byte 1. -/
theorem CompTime_fires_after_unmatched_slot (m : Macros) (now : DS1307_Config_t) (w : World)
    (k : Nat) (hlen : w.AlarmName.length = 30) (hk : 2 ≤ k ∧ k ≤ 5)
    (hprev : cell w.AlarmTime (k - 2) 0 = 0xFF ∨ cell w.AlarmTime (k - 2) 0 ≠ now.Hours ∨
      cell w.AlarmTime (k - 2) 1 ≠ now.Minutes ∨ cell w.AlarmTime (k - 2) 2 ≠ now.Seconds)
    (hslot : cell w.AlarmTime (k - 1) 0 ≠ 0xFF ∧ cell w.AlarmTime (k - 1) 0 = now.Hours ∧
      cell w.AlarmTime (k - 1) 1 = now.Minutes ∧ cell w.AlarmTime (k - 1) 2 = now.Seconds) :
    ∃ fs f, (CompTime m now w).spi = w.spi ++ fs ∧ f ∈ fs ∧
      f.data.getD 0 0 = m.ALARMCODE % 256 ∧ f.data.getD 1 0 = k ∧ f.data.length = 30 := by
  have hnot : ¬ slotDue w.AlarmTime now (k - 2) := by
    rintro ⟨h0, h1, h2, h3⟩
    rcases hprev with h | h | h | h
    · exact h0 h
    · exact h h1
    · exact h h2
    · exact h h3
  have hprevslot : k - 1 ∉ notified w.AlarmTime now 5 0 := by
    intro hmem
    have := (notified_due w.AlarmTime now 5 0 (k - 1) hmem).2.2
    have e : k - 1 - 1 = k - 2 := by omega
    rw [e] at this
    exact hnot this
  have hmem : k - 1 + 1 ∈ notified w.AlarmTime now 5 0 :=
    (notified_mem_iff w.AlarmTime now 5 0 (k - 1) (by omega)).mpr
      ⟨by omega, by omega, hslot, hprevslot⟩
  have hk1 : k - 1 + 1 = k := by omega
  rw [hk1] at hmem
  have hb := alarmFrame_bytes m w.AlarmName k hlen
  exact ⟨_, alarmFrame m w.AlarmName k, CompTime_spi m now w,
    List.mem_map.mpr ⟨k, hmem, rfl⟩, hb.1, hb.2.1, hb.2.2.1⟩

/-- C18 at a concrete input: slot 1 holds `07:30:01`, slot 2 holds `07:30:00`
and the reading is `07:30:00`. -/
theorem CompTime_fires_after_unmatched_slot_witness :
    ∃ fs f, (CompTime sampleMacros ⟨0, 30, 7, .DS1307_SATURDAY, 8, 23, 30⟩
        { startWorld [] with
          AlarmTime := [[7, 30, 1], [7, 30, 0], [255, 255, 255], [255, 255, 255],
            [255, 255, 255]] }).spi = (startWorld []).spi ++ fs ∧ f ∈ fs ∧
      f.data.getD 0 0 = sampleMacros.ALARMCODE % 256 ∧ f.data.getD 1 0 = 2 ∧
      f.data.length = 30 :=
  CompTime_fires_after_unmatched_slot sampleMacros ⟨0, 30, 7, .DS1307_SATURDAY, 8, 23, 30⟩
    { startWorld [] with
      AlarmTime := [[7, 30, 1], [7, 30, 0], [255, 255, 255], [255, 255, 255],
        [255, 255, 255]] } 2 (by decide) (by decide) (by decide) (by decide)

/-- C19: `Check_LoginInfo` called with `TriesNumber = 0` ends in `Locked` for
every id and password, a matching pair included; it takes no word from the line
and the one transmission it starts is the red frame (red code, then 29 zeros,
30 bytes). -/
theorem Check_LoginInfo_zero_tries (m : Macros) (ID Pass : List Nat) (w : World) :
    Check_LoginInfo m ID Pass 0 w
        = .done .Locked { w with spi := w.spi ++ [⟨redFrame m, .SPI_CallBackFunc⟩] } ∧
      (redFrame m).getD 0 0 = m.RED_LED_CODE % 256 ∧ (redFrame m).length = 30 := by
  refine ⟨?_, by simp [redFrame], by simp [redFrame]⟩
  simp [Check_LoginInfo, Check_LoginInfo.loop, SPI_Transmit_IT, redFrame]

/-- C20: for every alarm table and every clock reading, one `CompTime` pass
starts at most three transmissions and never notifies two consecutive slots `k`
and `k+1`; slot `j` is notified exactly when it is non-empty, equals the reading
in all three fields and slot `j-1` is not notified in the pass, so the slot
after a notified one is passed over and the slots from `k+2` on are examined as
usual. -/
theorem CompTime_passes_over_slot_after_notified (m : Macros) (now : DS1307_Config_t)
    (w : World) (hlen : w.AlarmName.length = 30) :
    ∃ fs, (CompTime m now w).spi = w.spi ++ fs ∧ fs.length ≤ 3 ∧
      (∀ k, k ∈ fs.map (fun f => f.data.getD 1 0) →
        k + 1 ∉ fs.map (fun f => f.data.getD 1 0)) ∧
      (∀ j, 1 ≤ j → j ≤ 5 →
        (j ∈ fs.map (fun f => f.data.getD 1 0) ↔
          (slotDue w.AlarmTime now (j - 1) ∧
            j - 1 ∉ fs.map (fun f => f.data.getD 1 0)))) := by
  refine ⟨_, CompTime_spi m now w, ?_, ?_, ?_⟩
  · have := notified_length w.AlarmTime now 5 0
    simpa using this
  · rw [alarmFrame_slots m w.AlarmName hlen]
    intro k hk hk1
    exact ((notified_mem_iff w.AlarmTime now 5 0 k (by omega)).mp hk1).2.2.2 hk
  · rw [alarmFrame_slots m w.AlarmName hlen]
    intro j h1 h5
    have hiff := notified_mem_iff w.AlarmTime now 5 0 (j - 1) (by omega)
    have e : j - 1 + 1 = j := by omega
    rw [e] at hiff
    constructor
    · intro h
      exact ⟨(hiff.mp h).2.2.1, (hiff.mp h).2.2.2⟩
    · rintro ⟨hd, hn⟩
      exact hiff.mpr ⟨by omega, by omega, hd, hn⟩

/-- C20 at a concrete input: all five slots hold `07:30:00` and the reading is
`07:30:00`. -/
theorem CompTime_passes_over_slot_after_notified_witness :
    ∃ fs, (CompTime sampleMacros ⟨0, 30, 7, .DS1307_SATURDAY, 8, 23, 30⟩
        { startWorld [] with
          AlarmTime := [[7, 30, 0], [7, 30, 0], [7, 30, 0], [7, 30, 0], [7, 30, 0]] }).spi
          = (startWorld []).spi ++ fs ∧ fs.length ≤ 3 ∧
      (∀ k, k ∈ fs.map (fun f => f.data.getD 1 0) →
        k + 1 ∉ fs.map (fun f => f.data.getD 1 0)) ∧
      (∀ j, 1 ≤ j → j ≤ 5 →
        (j ∈ fs.map (fun f => f.data.getD 1 0) ↔
          (slotDue [[7, 30, 0], [7, 30, 0], [7, 30, 0], [7, 30, 0], [7, 30, 0]]
              ⟨0, 30, 7, .DS1307_SATURDAY, 8, 23, 30⟩ (j - 1) ∧
            j - 1 ∉ fs.map (fun f => f.data.getD 1 0)))) :=
  CompTime_passes_over_slot_after_notified sampleMacros
    ⟨0, 30, 7, .DS1307_SATURDAY, 8, 23, 30⟩
    { startWorld [] with
      AlarmTime := [[7, 30, 0], [7, 30, 0], [7, 30, 0], [7, 30, 0], [7, 30, 0]] }
    (by decide)

/-! ## Display and login frames -/

/-- `Reading_Time` rewrites the first eight bytes of `ReadingArr` and keeps the
rest. -/
theorem Reading_Time_ReadingArr (m : Macros) (dayCode : DS1307_DAYS_t → Nat)
    (s : DS1307_Config_t) (w : World) (hlen : w.ReadingArr.length = 30) :
    (Reading_Time m dayCode s w).ReadingArr
      = [m.DISPLAY_CODE % 256, s.Seconds, s.Minutes, s.Hours, dayCode s.Day % 256,
          s.Month, s.Year, s.Date] ++ w.ReadingArr.drop 8 := by
  obtain ⟨b0, b1, b2, b3, b4, b5, b6, b7, tl, hb⟩ :
      ∃ b0 b1 b2 b3 b4 b5 b6 b7 tl,
        w.ReadingArr = b0 :: b1 :: b2 :: b3 :: b4 :: b5 :: b6 :: b7 :: tl := by
    match h : w.ReadingArr, hlen with
    | b0 :: b1 :: b2 :: b3 :: b4 :: b5 :: b6 :: b7 :: tl, _ =>
      exact ⟨b0, b1, b2, b3, b4, b5, b6, b7, tl, rfl⟩
  simp [Reading_Time, hb]

/-- C14: for every clock snapshot, `Reading_Time` followed by `Transmit_Time`
starts one transmission, of 30 bytes, whose byte 0 is the display code and whose
bytes 1..7 are, in this order, the seconds, minutes, hours, weekday, month, year
and date of the snapshot; bytes 8..29 of `ReadingArr` are not modified by
`Reading_Time`. -/
theorem Reading_Time_then_Transmit_Time (m : Macros) (dayCode : DS1307_DAYS_t → Nat)
    (s : DS1307_Config_t) (w : World) (hlen : w.ReadingArr.length = 30) :
    ∃ f, (Transmit_Time (Reading_Time m dayCode s w)).spi = w.spi ++ [f] ∧
      f.callback = .SPI_CALL_BACK ∧ f.data.length = 30 ∧
      f.data.take 8
        = [m.DISPLAY_CODE % 256, s.Seconds, s.Minutes, s.Hours, dayCode s.Day % 256,
            s.Month, s.Year, s.Date] ∧
      f.data.drop 8 = w.ReadingArr.drop 8 ∧
      (Reading_Time m dayCode s w).ReadingArr.drop 8 = w.ReadingArr.drop 8 ∧
      (Reading_Time m dayCode s w).ReadingArr.length = 30 := by
  have harr := Reading_Time_ReadingArr m dayCode s w hlen
  have hl : (Reading_Time m dayCode s w).ReadingArr.length = 30 := by
    rw [harr]; simp [hlen]
  have htake : List.take 30 (Reading_Time m dayCode s w).ReadingArr
      = (Reading_Time m dayCode s w).ReadingArr := by
    rw [← hl]; exact List.take_length _
  refine ⟨⟨(Reading_Time m dayCode s w).ReadingArr.take 30, .SPI_CALL_BACK⟩, rfl, rfl, ?_,
    ?_, ?_, ?_, hl⟩
  · simp only [htake, hl]
  · simp only [htake]; rw [harr]; rfl
  · simp only [htake]; rw [harr]; rfl
  · rw [harr]; rfl

/-- C14 at a concrete input: the snapshot Saturday 23-08-30 12:30:45 read into
the start state. -/
theorem Reading_Time_then_Transmit_Time_witness :
    ∃ f, (Transmit_Time (Reading_Time sampleMacros sampleDayCode
        ⟨45, 30, 12, .DS1307_SATURDAY, 8, 23, 30⟩ (startWorld []))).spi
          = (startWorld []).spi ++ [f] ∧
      f.callback = .SPI_CALL_BACK ∧ f.data.length = 30 ∧
      f.data.take 8 = [sampleMacros.DISPLAY_CODE % 256, 45, 30, 12,
        sampleDayCode .DS1307_SATURDAY % 256, 8, 23, 30] ∧
      f.data.drop 8 = (startWorld []).ReadingArr.drop 8 ∧
      (Reading_Time sampleMacros sampleDayCode ⟨45, 30, 12, .DS1307_SATURDAY, 8, 23, 30⟩
        (startWorld [])).ReadingArr.drop 8 = (startWorld []).ReadingArr.drop 8 ∧
      (Reading_Time sampleMacros sampleDayCode ⟨45, 30, 12, .DS1307_SATURDAY, 8, 23, 30⟩
        (startWorld [])).ReadingArr.length = 30 :=
  Reading_Time_then_Transmit_Time sampleMacros sampleDayCode
    ⟨45, 30, 12, .DS1307_SATURDAY, 8, 23, 30⟩ (startWorld []) (by decide)

/-- A 30-byte buffer whose bytes 1..29 are zero is its first byte followed by 29
zeros. -/
theorem drop_one_zeros (l : List Nat) (hlen : l.length = 30)
    (hz : ∀ i, i < 30 → 1 ≤ i → l.getD i 0 = 0) :
    l.drop 1 = List.replicate 29 0 := by
  apply List.ext_getElem?
  intro i
  rw [List.getElem?_drop, List.getElem?_replicate]
  by_cases hi : i < 29
  · have h := hz (1 + i) (by omega) (by omega)
    have hlt : 1 + i < l.length := by omega
    simp only [List.getD_eq_getElem?_getD, List.getElem?_eq_getElem hlt,
      Option.getD_some] at h
    rw [if_pos hi, List.getElem?_eq_getElem hlt, h]
  · rw [if_neg hi, List.getElem?_eq_none (by omega)]

/-- The transmission started by `SendGreenSignal`: `ReadingArr` with the green
code in byte 0. -/
theorem SendGreenSignal_frame (m : Macros) (w : World) (hlen : w.ReadingArr.length = 30) :
    (SendGreenSignal m w).spi
      = w.spi ++ [⟨(m.GREEN_LED_CODE % 256) :: w.ReadingArr.drop 1, .SPI_CALL_BACK⟩] := by
  cases hr : w.ReadingArr with
  | nil => simp [hr] at hlen
  | cons x xs =>
    have hxs : xs.length = 29 := by simpa [hr] using hlen
    have htake : List.take 29 xs = xs := by rw [← hxs]; exact List.take_length xs
    simp [SendGreenSignal, SPI_Transmit_IT, hr, htake]

/-- C15, as the code has it: the red frame of `Check_LoginInfo` is always the red
code followed by 29 zeros; the green frame is the 30-byte `ReadingArr` with
byte 0 replaced by the green code, so its bytes 1..29 are the bytes 1..29
`ReadingArr` holds at the call: all zero when `ReadingArr` holds zeros there, as
at start-up, and the clock bytes after `Reading_Time` has run. -/
theorem login_frames (m : Macros) (ID Pass : List Nat) (N : Nat) (w : World)
    (hlen : w.ReadingArr.length = 30) :
    (∀ w1, Check_LoginInfo m ID Pass N w = .done .Locked w1 →
        w1.spi = w.spi ++ [⟨(m.RED_LED_CODE % 256) :: List.replicate 29 0,
          .SPI_CallBackFunc⟩]) ∧
      (∀ w1, Check_LoginInfo m ID Pass N w = .done .Granted w1 →
        w1.spi = w.spi ++ [⟨(m.GREEN_LED_CODE % 256) :: w.ReadingArr.drop 1,
          .SPI_CALL_BACK⟩]) ∧
      (SendGreenSignal m w).spi
        = w.spi ++ [⟨(m.GREEN_LED_CODE % 256) :: w.ReadingArr.drop 1, .SPI_CALL_BACK⟩] ∧
      ((m.GREEN_LED_CODE % 256) :: w.ReadingArr.drop 1).length = 30 ∧
      ((∀ i, i < 30 → 1 ≤ i → w.ReadingArr.getD i 0 = 0) →
        (m.GREEN_LED_CODE % 256) :: w.ReadingArr.drop 1
          = (m.GREEN_LED_CODE % 256) :: List.replicate 29 0) := by
  obtain ⟨rx1, -, hres⟩ := Check_LoginInfo_loop_world ID Pass N
    (ID_Equal_InvertedPass ID Pass NUM_OF_ID_PASS_DIGITS) w
  have hgreen : ∀ rx1 : List Nat, (SendGreenSignal m { w with rx := rx1 }).spi
      = w.spi ++ [⟨(m.GREEN_LED_CODE % 256) :: w.ReadingArr.drop 1, .SPI_CALL_BACK⟩] :=
    fun rx1 => SendGreenSignal_frame m { w with rx := rx1 } hlen
  refine ⟨?_, ?_, SendGreenSignal_frame m w hlen, by simp [hlen], ?_⟩
  · intro w1 h
    rcases hres with ⟨T1, hres⟩ | hres
    · simp only [Check_LoginInfo, hres] at h
      split at h
      · injection h with _ hw
        rw [← hw]
        simp [SPI_Transmit_IT]
      · cases h
    · simp [Check_LoginInfo, hres] at h
  · intro w1 h
    rcases hres with ⟨T1, hres⟩ | hres
    · simp only [Check_LoginInfo, hres] at h
      split at h
      · cases h
      · injection h with _ hw
        rw [← hw]
        exact hgreen rx1
    · simp [Check_LoginInfo, hres] at h
  · intro hz
    rw [drop_one_zeros w.ReadingArr hlen hz]

/-- C15 at a concrete input: from the start state a matching pair is granted and
the green frame is the green code followed by 29 zeros. -/
theorem login_frames_witness :
    (SendGreenSignal sampleMacros (startWorld [])).spi
        = (startWorld []).spi ++ [⟨(sampleMacros.GREEN_LED_CODE % 256)
            :: (startWorld []).ReadingArr.drop 1, .SPI_CALL_BACK⟩] ∧
      ((sampleMacros.GREEN_LED_CODE % 256) :: (startWorld []).ReadingArr.drop 1
        = (sampleMacros.GREEN_LED_CODE % 256) :: List.replicate 29 0) :=
  ⟨(login_frames sampleMacros [1, 2, 3, 4] [4, 3, 2, 1] 3 (startWorld [])
      (by decide)).2.2.1,
    (login_frames sampleMacros [1, 2, 3, 4] [4, 3, 2, 1] 3 (startWorld [])
      (by decide)).2.2.2.2 (by decide)⟩

/-- C15, the claim at a reachable state: after `Reading_Time` has stored the
snapshot 12:30:45, `SendGreenSignal` starts a frame whose byte 0 is the green
code and whose bytes 1..7 are the clock bytes, not zeros. -/
theorem SendGreenSignal_after_Reading_Time :
    ∃ f, (SendGreenSignal sampleMacros (Reading_Time sampleMacros sampleDayCode
        ⟨45, 30, 12, .DS1307_SATURDAY, 8, 23, 30⟩ (startWorld []))).spi = [f] ∧
      f.data.getD 0 0 = sampleMacros.GREEN_LED_CODE % 256 ∧
      f.data.take 8 = [2, 45, 30, 12, 1, 8, 23, 30] ∧
      ¬ (∀ i, i < 30 → 1 ≤ i → f.data.getD i 0 = 0) :=
  ⟨_, rfl, by decide, by decide, by decide⟩

/-! ## The prompts of `SetAlarm` -/

theorem Round_accepted_iff (r : Round) :
    r.accepted ↔ (r.choice % 256 > 48 ∧ r.choice % 256 < 54) := by
  have h : ['1', '2', '3', '4', '5'].map Char.toNat = [49, 50, 51, 52, 53] := by decide
  unfold Round.accepted
  rw [h]
  simp only [List.mem_cons, List.mem_singleton, List.not_mem_nil, or_false]
  omega

theorem labelKeys_length (label : List Nat) (h : label.length ≤ 28) :
    (labelKeys label).length ≤ 28 ∧ label.length ≤ (labelKeys label).length := by
  unfold labelKeys
  split
  · simp; omega
  · omega

/-- One call of `SetAlarm` with a round on the line: the choice and the label
are read, then the choice is tested; an accepted choice goes on to `CalcAlarm`,
any other one starts `SetAlarm` again. -/
theorem SetAlarm_round (w : World) (r : Round) (rest : List Nat)
    (hlen : w.AlarmName.length = 30) (hr : r.sized) (hrx : w.rx = r.keys ++ rest) :
    SetAlarm w
      = if r.choice % 256 > 48 ∧ r.choice % 256 < 54 then
          CalcAlarm (r.choice % 256 - 1) (afterLabel w r.label rest)
        else SetAlarm (afterLabel w r.label rest) := by
  have hrx2 : w.rx = r.choice :: (labelKeys r.label ++ rest) := by
    simpa [Round.keys] using hrx
  have hloop := SetAlarm_nameLoop_keys r.label
    { w with rx := labelKeys r.label ++ rest, AlarmNameCounter := 2 } rest hr.2 hr.1 rfl hlen rfl
  have hfuel : SetAlarm.go (labelKeys r.label ++ rest).length.succ (afterLabel w r.label rest)
      = SetAlarm (afterLabel w r.label rest) := by
    unfold SetAlarm
    apply SetAlarm_go_fuel
    · show rest.length < _
      simp; omega
    · show rest.length < _
      simp [afterLabel]
  simp only [SetAlarm, SetAlarm.go, hrx2, List.length_cons, UART_u16Receive, hloop]
  split
  · rfl
  · exact hfuel

/-- Rejected rounds leave everything but the line and the label buffer as it
was, and `SetAlarm` goes on as if started after them. -/
theorem SetAlarm_rejected_rounds (rs : List Round) :
    (∀ r ∈ rs, r.sized ∧ ¬ r.accepted) →
    ∀ (w : World) (rest : List Nat), w.AlarmName.length = 30 →
      w.rx = typedRounds rs ++ rest →
      ∃ w1, SetAlarm w = SetAlarm w1 ∧ w1.rx = rest ∧ w1.AlarmTime = w.AlarmTime ∧
        w1.spi = w.spi ∧ w1.ReadingArr = w.ReadingArr ∧ w1.AlarmName.length = 30 := by
  induction rs with
  | nil =>
    intro _ w rest hlen hrx
    exact ⟨w, rfl, by simpa [typedRounds] using hrx, rfl, rfl, rfl, hlen⟩
  | cons r rs ih =>
    intro hall w rest hlen hrx
    have hr := hall r (by simp)
    have hrx2 : w.rx = r.keys ++ (typedRounds rs ++ rest) := by
      simpa [typedRounds, List.append_assoc] using hrx
    have hstep := SetAlarm_round w r (typedRounds rs ++ rest) hlen hr.1 hrx2
    have hrej : ¬ (r.choice % 256 > 48 ∧ r.choice % 256 < 54) :=
      fun h => hr.2 ((Round_accepted_iff r).mpr h)
    rw [if_neg hrej] at hstep
    obtain ⟨w1, h1, h2, h3, h4, h5, h6⟩ := ih (fun x hx => hall x (by simp [hx]))
      (afterLabel w r.label (typedRounds rs ++ rest)) rest
      (by simp [afterLabel, storeFrom_length, hlen]) rfl
    exact ⟨w1, hstep.trans h1, h2, h3, h4, h5, h6⟩

/-- An accepted round followed by a time text: the text is decoded into the row
of the chosen slot. -/
theorem SetAlarm_accepted_round (w : World) (r : Round) (a0 a1 a2 a3 a4 a5 a6 a7 : Nat)
    (rest : List Nat) (hlen : w.AlarmName.length = 30) (ht : w.AlarmTime.length = 5)
    (hrows : ∀ row ∈ w.AlarmTime, row.length = 3) (hr : r.sized) (hacc : r.accepted)
    (hrx : w.rx = r.keys ++ ([a0, a1, a2, a3, a4, a5, a6, a7] ++ rest)) :
    SetAlarm w
      = .done () { afterLabel w r.label rest with
          AlarmTime := w.AlarmTime.set (r.choice % 256 - 49)
            [twoDigits 48 (a0 % 256) (a1 % 256), twoDigits 48 (a3 % 256) (a4 % 256),
              twoDigits 48 (a6 % 256) (a7 % 256)] } := by
  have hstep := SetAlarm_round w r ([a0, a1, a2, a3, a4, a5, a6, a7] ++ rest) hlen hr hrx
  have hin := (Round_accepted_iff r).mp hacc
  rw [if_pos hin] at hstep
  have hcalc := CalcAlarm_text (r.choice % 256 - 1)
    (afterLabel w r.label ([a0, a1, a2, a3, a4, a5, a6, a7] ++ rest))
    a0 a1 a2 a3 a4 a5 a6 a7 rest rfl
  have hidx : r.choice % 256 - 1 - 48 = r.choice % 256 - 49 := by omega
  rw [hidx] at hcalc
  have hrow := setCell_row w.AlarmTime (r.choice % 256 - 49)
    (twoDigits 48 (a0 % 256) (a1 % 256)) (twoDigits 48 (a3 % 256) (a4 % 256))
    (twoDigits 48 (a6 % 256) (a7 % 256)) (by omega) hrows
  rw [hstep, hcalc]
  simp only [afterLabel] at hrow ⊢
  rw [hrow]

/-- C12: `SetAlarm` accepts the slot choice exactly when the received byte is one
of the characters `1` to `5`.  For any other byte it leaves the five alarm slots
as they were and starts over at the slot prompt; an accepted choice is followed
by the read of the time text, which is stored in the chosen slot.  After any
number of rejected rounds the alarm slots are still untouched: with nothing more
on the line `SetAlarm` waits at the slot prompt, and with an accepted round and a
time text it stores that text. -/
theorem SetAlarm_slot_choice (w : World) (hw : w.sized) :
    (∀ (r : Round) (rest : List Nat), r.sized → ¬ r.accepted → w.rx = r.keys ++ rest →
        SetAlarm w = SetAlarm (afterLabel w r.label rest) ∧
          (afterLabel w r.label rest).AlarmTime = w.AlarmTime ∧
          (afterLabel w r.label rest).rx = rest) ∧
      (∀ (r : Round) (a0 a1 a2 a3 a4 a5 a6 a7 : Nat) (rest : List Nat),
        r.sized → r.accepted →
        w.rx = r.keys ++ ([a0, a1, a2, a3, a4, a5, a6, a7] ++ rest) →
        ∃ w1, SetAlarm w = .done () w1 ∧ w1.rx = rest ∧
          w1.AlarmTime = w.AlarmTime.set (r.choice % 256 - 49)
            [twoDigits 48 (a0 % 256) (a1 % 256), twoDigits 48 (a3 % 256) (a4 % 256),
              twoDigits 48 (a6 % 256) (a7 % 256)]) ∧
      (∀ (rs : List Round), (∀ r ∈ rs, r.sized ∧ ¬ r.accepted) →
        (w.rx = typedRounds rs →
          ∃ w1, SetAlarm w = .blocked w1 ∧ w1.rx = [] ∧ w1.AlarmTime = w.AlarmTime) ∧
        (∀ (r : Round) (a0 a1 a2 a3 a4 a5 a6 a7 : Nat) (rest : List Nat),
          r.sized → r.accepted →
          w.rx = typedRounds rs ++ (r.keys ++ ([a0, a1, a2, a3, a4, a5, a6, a7] ++ rest)) →
          ∃ w1, SetAlarm w = .done () w1 ∧ w1.rx = rest ∧
            w1.AlarmTime = w.AlarmTime.set (r.choice % 256 - 49)
              [twoDigits 48 (a0 % 256) (a1 % 256), twoDigits 48 (a3 % 256) (a4 % 256),
                twoDigits 48 (a6 % 256) (a7 % 256)])) := by
  obtain ⟨ht, hrows, hname, -⟩ := hw
  refine ⟨?_, ?_, ?_⟩
  · intro r rest hr hrej hrx
    have hstep := SetAlarm_round w r rest hname hr hrx
    rw [if_neg (fun h => hrej ((Round_accepted_iff r).mpr h))] at hstep
    exact ⟨hstep, rfl, rfl⟩
  · intro r a0 a1 a2 a3 a4 a5 a6 a7 rest hr hacc hrx
    exact ⟨_, SetAlarm_accepted_round w r a0 a1 a2 a3 a4 a5 a6 a7 rest hname ht hrows hr hacc
      hrx, rfl, rfl⟩
  · intro rs hall
    constructor
    · intro hrx
      obtain ⟨w1, h1, h2, h3, -, -, -⟩ := SetAlarm_rejected_rounds rs hall w [] hname
        (by simpa using hrx)
      refine ⟨w1, ?_, h2, h3⟩
      rw [h1]
      simp [SetAlarm, SetAlarm.go, UART_u16Receive, h2]
    · intro r a0 a1 a2 a3 a4 a5 a6 a7 rest hr hacc hrx
      obtain ⟨w1, h1, h2, h3, -, -, h6⟩ := SetAlarm_rejected_rounds rs hall w
        (r.keys ++ ([a0, a1, a2, a3, a4, a5, a6, a7] ++ rest)) hname hrx
      have h := SetAlarm_accepted_round w1 r a0 a1 a2 a3 a4 a5 a6 a7 rest h6
        (by rw [h3]; exact ht) (by rw [h3]; exact hrows) hr hacc h2
      rw [h3] at h
      exact ⟨_, h1.trans h, rfl, rfl⟩

/-- C12 at a concrete input: the choices `6` and `0` (each with a label) are
rejected, then choice `2` with the text `07:30:00` is stored in slot 2. -/
theorem SetAlarm_slot_choice_witness :
    ∃ w1, SetAlarm (startWorld [54, 65, 13, 48, 13, 50, 66, 13,
        48, 55, 58, 51, 48, 58, 48, 48, 9]) = .done () w1 ∧ w1.rx = [9] ∧
      w1.AlarmTime = (startWorld []).AlarmTime.set (50 % 256 - 49)
        [twoDigits 48 (48 % 256) (55 % 256), twoDigits 48 (51 % 256) (48 % 256),
          twoDigits 48 (48 % 256) (48 % 256)] :=
  (SetAlarm_slot_choice (startWorld [54, 65, 13, 48, 13, 50, 66, 13,
      48, 55, 58, 51, 48, 58, 48, 48, 9]) (by decide)).2.2
    [⟨54, [65]⟩, ⟨48, []⟩] (by decide) |>.2 ⟨50, [66]⟩ 48 55 58 51 48 58 48 48 [9]
    (by decide) (by decide) (by decide)

/-! ## The label in the alarm frame -/

/-- The receive loop overwrites the slice it stores into and keeps the bytes
before and after it. -/
theorem storeFrom_slice (Arr : List Nat) (c : Nat) (xs : List Nat)
    (h : c + xs.length ≤ Arr.length) :
    storeFrom Arr c xs = Arr.take c ++ xs.map (· % 256) ++ Arr.drop (c + xs.length) := by
  have hsplit : Arr = Arr.take c ++ (Arr.drop c).take xs.length ++ Arr.drop (c + xs.length) := by
    have e : Arr.drop (c + xs.length) = (Arr.drop c).drop xs.length := by
      rw [List.drop_drop, Nat.add_comm]
    rw [e, List.append_assoc, List.take_append_drop, List.take_append_drop]
  have hpre : (Arr.take c).length = c := by
    rw [List.length_take]; omega
  have hz : ((Arr.drop c).take xs.length).length = xs.length := by
    rw [List.length_take, List.length_drop]; omega
  have h2 := storeFrom_append xs (Arr.take c) ((Arr.drop c).take xs.length)
    (Arr.drop (c + xs.length)) hz
  rw [hpre, ← hsplit] at h2
  exact h2

/-- C13, as the code has it: after a `SetAlarm` call with label `label`, every
alarm frame the next `CompTime` pass starts carries, from byte 2 on, the bytes
of that label, then the Enter byte 13 when the label is shorter than 28 bytes,
and after that the bytes `AlarmName` already held at those positions before the
call (zeros only where nothing was stored before). -/
theorem SetAlarm_label_in_frame (m : Macros) (w : World) (k : Nat) (label : List Nat)
    (a0 a1 a2 a3 a4 a5 a6 a7 : Nat) (rest : List Nat) (now : DS1307_Config_t)
    (hw : w.sized) (hk : 1 ≤ k ∧ k ≤ 5)
    (hlabel : label.length ≤ 28 ∧ ∀ b ∈ label, b % 256 ≠ 13)
    (hrx : w.rx = (48 + k) :: (labelKeys label ++ ([a0, a1, a2, a3, a4, a5, a6, a7] ++ rest))) :
    ∃ w1 fs, SetAlarm w = .done () w1 ∧ (CompTime m now w1).spi = w1.spi ++ fs ∧
      ∀ f ∈ fs, f.data.length = 30 ∧ f.data.getD 0 0 = m.ALARMCODE % 256 ∧
        f.data.drop 2
          = (labelKeys label).map (· % 256)
              ++ w.AlarmName.drop (2 + (labelKeys label).length) := by
  have hset := SetAlarm_stores w k label a0 a1 a2 a3 a4 a5 a6 a7 rest hw hk hlabel hrx
  obtain ⟨-, -, hname, -⟩ := hw
  have hkeys := labelKeys_length label hlabel.1
  have hslice := storeFrom_slice w.AlarmName 2 (labelKeys label) (by omega)
  refine ⟨_, _, hset, CompTime_spi m now _, ?_⟩
  intro f hf
  obtain ⟨j, -, rfl⟩ := List.mem_map.mp hf
  have hb := alarmFrame_bytes m (storeFrom w.AlarmName 2 (labelKeys label)) j
    (by rw [storeFrom_length]; exact hname)
  refine ⟨hb.2.2.1, hb.1, ?_⟩
  rw [hb.2.2.2.1, hslice, List.append_assoc, List.drop_append_of_le_length (by simp; omega)]
  have e : (List.take 2 w.AlarmName).drop 2 = [] := by simp
  rw [e, List.nil_append]

/-- C13 at a concrete input: slot 1 set to `07:30:00` with label `AB` from the
start state; the pass at `07:30:00` starts one frame, whose bytes from index 2 on
are `A`, `B`, Enter and then the 25 zeros the buffer held. -/
theorem SetAlarm_label_in_frame_witness :
    (∃ w1 fs, SetAlarm (startWorld [49, 65, 66, 13, 48, 55, 58, 51, 48, 58, 48, 48])
          = .done () w1 ∧
        (CompTime sampleMacros ⟨0, 30, 7, .DS1307_SATURDAY, 8, 23, 30⟩ w1).spi
          = w1.spi ++ fs ∧
        ∀ f ∈ fs, f.data.length = 30 ∧ f.data.getD 0 0 = sampleMacros.ALARMCODE % 256 ∧
          f.data.drop 2
            = (labelKeys [65, 66]).map (· % 256)
                ++ (startWorld []).AlarmName.drop (2 + (labelKeys [65, 66]).length)) ∧
      ((CompTime sampleMacros ⟨0, 30, 7, .DS1307_SATURDAY, 8, 23, 30⟩
          (SetAlarm (startWorld [49, 65, 66, 13, 48, 55, 58, 51, 48, 58, 48, 48])).world).spi.map
            (fun f => f.data.take 5)) = [[3, 1, 65, 66, 13]] :=
  ⟨SetAlarm_label_in_frame sampleMacros
      (startWorld [49, 65, 66, 13, 48, 55, 58, 51, 48, 58, 48, 48]) 1 [65, 66]
      48 55 58 51 48 58 48 48 [] ⟨0, 30, 7, .DS1307_SATURDAY, 8, 23, 30⟩
      (by decide) (by decide) (by decide) rfl,
    by decide⟩

/-- C13, the claim at a concrete input: slot 1 is set with the label `ABCD` and
then set again with the label `X`; the frame of the next pass carries `X`, the
Enter byte, and then `C`, `D` and the Enter byte of the earlier label, not `X`
followed by zeros. -/
theorem SetAlarm_earlier_label_survives :
    ∃ wa wb f,
      SetAlarm (startWorld [49, 65, 66, 67, 68, 13, 48, 55, 58, 51, 48, 58, 48, 48,
          49, 88, 13, 48, 55, 58, 51, 48, 58, 48, 48]) = .done () wa ∧
        SetAlarm wa = .done () wb ∧
        (CompTime sampleMacros ⟨0, 30, 7, .DS1307_SATURDAY, 8, 23, 30⟩ wb).spi = [f] ∧
        f.data.take 8 = [3, 1, 88, 13, 67, 68, 13, 0] ∧
        ¬ (f.data.drop 2 = [88] ++ List.replicate 27 0) :=
  ⟨_, _, _, rfl, rfl, rfl, by decide, by decide⟩

/-! ## The invariant of the alarm table -/

/-- C16, as the code has it: the invariant holds in the start state, where all
five rows hold the empty marker, and a completed `SetAlarm` (any number of
rejected rounds, then an accepted one) keeps it when the time text has ASCII
digits that denote an hour of at most 23, a minute of at most 59 and a second of
at most 59; `CalcAlarm` itself checks no range. -/
theorem SetAlarm_keeps_valid_times (w : World) (rs : List Round) (r : Round)
    (h1 h2 m1 m2 s1 s2 c1 c2 : Nat) (rest : List Nat)
    (hw : w.sized) (hvalid : tableValid w.AlarmTime)
    (hrs : ∀ x ∈ rs, x.sized ∧ ¬ x.accepted) (hr : r.sized ∧ r.accepted)
    (hdigits : h1 ≤ 9 ∧ h2 ≤ 9 ∧ m1 ≤ 9 ∧ m2 ≤ 9 ∧ s1 ≤ 9 ∧ s2 ≤ 9)
    (hrange : 10 * h1 + h2 ≤ 23 ∧ 10 * m1 + m2 ≤ 59 ∧ 10 * s1 + s2 ≤ 59)
    (hrx : w.rx = typedRounds rs ++ (r.keys ++
      ([48 + h1, 48 + h2, c1, 48 + m1, 48 + m2, c2, 48 + s1, 48 + s2] ++ rest))) :
    (∀ rx, tableValid (startWorld rx).AlarmTime) ∧
      ∃ w1, SetAlarm w = .done () w1 ∧ w1.rx = rest ∧
        w1.AlarmTime = w.AlarmTime.set (r.choice % 256 - 49)
          [10 * h1 + h2, 10 * m1 + m2, 10 * s1 + s2] ∧
        tableValid w1.AlarmTime := by
  have hstart : tableValid (List.replicate 5 [255, 255, 255]) := by decide
  refine ⟨fun _ => hstart, ?_⟩
  obtain ⟨ht, hrows, hname, -⟩ := hw
  obtain ⟨dh1, dh2, dm1, dm2, ds1, ds2⟩ := hdigits
  obtain ⟨w0, e1, e2, e3, -, -, e6⟩ := SetAlarm_rejected_rounds rs hrs w _ hname hrx
  have h := SetAlarm_accepted_round w0 r (48 + h1) (48 + h2) c1 (48 + m1) (48 + m2) c2
    (48 + s1) (48 + s2) rest e6 (by rw [e3]; exact ht) (by rw [e3]; exact hrows) hr.1 hr.2 e2
  rw [twoDigits_digits h1 h2 dh1 dh2, twoDigits_digits m1 m2 dm1 dm2,
    twoDigits_digits s1 s2 ds1 ds2, e3] at h
  have hin := (Round_accepted_iff r).mp hr.2
  refine ⟨_, e1.trans h, rfl, rfl, ?_⟩
  intro i hi
  show cell (w.AlarmTime.set _ _) i 0 = _ ∨ _
  rw [cell_set_row _ _ _ 0 _ (by omega), cell_set_row _ _ _ 1 _ (by omega),
    cell_set_row _ _ _ 2 _ (by omega)]
  by_cases hidx : i = r.choice % 256 - 49
  · simp only [hidx, if_true]
    right
    exact hrange
  · simp only [hidx, if_false]
    exact hvalid i hi

/-- C16 at a concrete input: from the start state, choice `6` is rejected, then
slot 2 is set to `23:59:59`. -/
theorem SetAlarm_keeps_valid_times_witness :
    ∃ w1, SetAlarm (startWorld [54, 13, 50, 13, 50, 51, 58, 53, 57, 58, 53, 57]) = .done () w1 ∧
      w1.rx = [] ∧
      w1.AlarmTime = (startWorld []).AlarmTime.set (50 % 256 - 49)
        [10 * 2 + 3, 10 * 5 + 9, 10 * 5 + 9] ∧
      tableValid w1.AlarmTime :=
  (SetAlarm_keeps_valid_times (startWorld [54, 13, 50, 13, 50, 51, 58, 53, 57, 58, 53, 57])
    [⟨54, []⟩] ⟨50, []⟩ 2 3 5 9 5 9 58 58 [] (by decide) (by decide) (by decide) (by decide)
    (by decide) (by decide) rfl).2

/-- C16, the claim at a concrete input: the start state satisfies the invariant;
`SetAlarm` with choice `1` and the text `99:99:99` stores hour 99, minute 99 and
second 99 in slot 1, and the invariant no longer holds. -/
theorem SetAlarm_stores_out_of_range_time :
    tableValid (startWorld [49, 13, 57, 57, 58, 57, 57, 58, 57, 57]).AlarmTime ∧
      ∃ w1, SetAlarm (startWorld [49, 13, 57, 57, 58, 57, 57, 58, 57, 57]) = .done () w1 ∧
        w1.AlarmTime.getD 0 [] = [99, 99, 99] ∧ ¬ tableValid w1.AlarmTime :=
  ⟨by decide, _, rfl, by decide, by decide⟩

/-! ## The layout of the calendar text -/

theorem received_take_getD (l : List Nat) (n i : Nat) :
    (received (l.take n)).getD i 0 = if i < n then (l.getD i 0) % 256 else 0 := by
  simp only [received, List.getD_eq_getElem?_getD, List.getElem?_map, List.getElem?_take]
  split
  · cases l[i]? <;> simp
  · rfl

/-- `ReadDateTime_FromPC` with fewer words on the line than the text has takes
them and waits. -/
theorem ReadDateTime_FromPC_short (m : Macros) (w : World)
    (h : w.rx.length < m.CALENDER_FORMAT) :
    ReadDateTime_FromPC m w = .blocked { w with rx := [] } := by
  have hloop := receiveLoop_short m.CALENDER_FORMAT m.CALENDER_FORMAT 0
    (List.replicate m.CALENDER_FORMAT 0) w (by omega) h
  simp only [ReadDateTime_FromPC, hloop]

/-- C11, as the code has it: a text of `CALENDER_FORMAT` bytes with the two-digit
year at offsets 0-1, month at 3-4, date at 6-7, hour at 15-16, minute at 18-19
and second at 21-22, and with the weekday letters at the three letter offsets,
is decoded to exactly the values its fields denote and the weekday its letters
spell; it is accepted when those values are within the bounds of
`Check_Calender`.  (The hour field is at offset 15, seven bytes after the date,
not at offset 11 as in `23-08-30SAT12:30:45`.) -/
theorem ReadDateTime_FromPC_layout (m : Macros) (w : World) (text rest : List Nat)
    (p : List Nat × DS1307_DAYS_t) (y0 y1 mo0 mo1 d0 d1 h0 h1 mi0 mi1 s0 s1 : Nat)
    (hlen : text.length = m.CALENDER_FORMAT) (hrx : w.rx = text ++ rest)
    (hy : digitsAt (received text) 0 y0 y1) (hmo : digitsAt (received text) 3 mo0 mo1)
    (hd : digitsAt (received text) 6 d0 d1) (hh : digitsAt (received text) 15 h0 h1)
    (hmi : digitsAt (received text) 18 mi0 mi1) (hs : digitsAt (received text) 21 s0 s1)
    (hp : p ∈ abbreviations)
    (hletters : sameLetters p.1 ((received text).getD m.FIRST_LETTER_OF_DAY 0)
      ((received text).getD m.SECOND_LETTER_OF_DAY 0)
      ((received text).getD m.THIRD_LETTER_OF_DAY 0)) :
    ∃ e, ReadDateTime_FromPC m w
        = .done e { w with
            rx := rest
            Date_Time_RTC :=
              { Seconds := 10 * s0 + s1, Minutes := 10 * mi0 + mi1, Hours := 10 * h0 + h1,
                Day := p.2, Month := 10 * mo0 + mo1, Year := 10 * y0 + y1,
                Date := 10 * d0 + d1 } } ∧
      ((10 * d0 + d1 ≤ m.MAX_DATE ∧ 10 * mo0 + mo1 ≤ m.MAX_MONTH ∧
          10 * y0 + y1 ≤ m.MAX_YEAR ∧ 10 * h0 + h1 ≤ 23 ∧ 10 * mi0 + mi1 ≤ 59 ∧
          10 * s0 + s1 ≤ 59) → e = .OK) := by
  have hrun := ReadDateTime_FromPC_run m w text rest hlen hrx
  have hday := (FindDay_spec m (received text)).1 p hp hletters
  have field : ∀ (i a b : Nat), digitsAt (received text) i a b →
      twoDigits ZERO_ASCII ((received text).getD i 0) ((received text).getD (i + 1) 0)
        = 10 * a + b := by
    rintro i a b ⟨e0, e1, ha, hb⟩
    rw [e0, e1, twoDigits_ascii a b ha hb]
  have hdt : ({ Calculate_Calender w.Date_Time_RTC (received text) with
        Day := FindDay m (received text) } : DS1307_Config_t)
      = { Seconds := 10 * s0 + s1, Minutes := 10 * mi0 + mi1, Hours := 10 * h0 + h1,
          Day := p.2, Month := 10 * mo0 + mo1, Year := 10 * y0 + y1,
          Date := 10 * d0 + d1 } := by
    simp only [Calculate_Calender, hday]
    rw [field 0 y0 y1 hy, field 3 mo0 mo1 hmo, field 6 d0 d1 hd, field 15 h0 h1 hh,
      field 18 mi0 mi1 hmi, field 21 s0 s1 hs]
  rw [hdt] at hrun
  refine ⟨_, hrun, ?_⟩
  rintro ⟨b1, b2, b3, b4, b5, b6⟩
  have hne : ∀ q ∈ abbreviations, q.2 ≠ DS1307_DAYS_t.WRONG_DAY := by decide
  have hpd := hne p hp
  unfold Check_Calender
  simp only [MAX_HOURS, MAX_MINUTES, MAX_SECONDS]
  rw [if_neg]
  rintro (h | h | h | h | h | h | h)
  · exact absurd b1 (by omega)
  · exact hpd h
  · exact absurd b4 (by omega)
  · exact absurd b5 (by omega)
  · exact absurd b2 (by omega)
  · exact absurd b6 (by omega)
  · exact absurd b3 (by omega)

/-- C11 at a concrete input: with the letters at offsets 10 to 12 and the sample
bounds, the 23-byte text `23-08-30 (SAT) 12:30:45` is accepted and decoded to
23, 8, 30, Saturday, 12, 30, 45. -/
theorem ReadDateTime_FromPC_layout_witness :
    ReadDateTime_FromPC sampleMacros
        (startWorld ("23-08-30 (SAT) 12:30:45".toList.map Char.toNat))
      = .done .OK
          { startWorld ("23-08-30 (SAT) 12:30:45".toList.map Char.toNat) with
            rx := [], Date_Time_RTC := ⟨45, 30, 12, .DS1307_SATURDAY, 8, 23, 30⟩ } := by
  obtain ⟨e, hrun, hok⟩ := ReadDateTime_FromPC_layout sampleMacros
    (startWorld ("23-08-30 (SAT) 12:30:45".toList.map Char.toNat))
    ("23-08-30 (SAT) 12:30:45".toList.map Char.toNat) []
    ([83, 65, 84], .DS1307_SATURDAY) 2 3 0 8 3 0 1 2 3 0 4 5
    (by decide) (by decide) (by decide) (by decide) (by decide) (by decide) (by decide)
    (by decide) (by decide) (by decide)
  rw [hrun, hok (by decide)]

/-- C11, the claim at its literal: whatever the values of the header macros and
whatever follows it on the line, the text `23-08-30SAT12:30:45` is never decoded
to hour 12; the bytes the code reads as the hour are those at offsets 15 and 16,
`0` and `:`. -/
theorem ReadDateTime_FromPC_literal :
    ¬ ∃ (m : Macros) (w : World) (rest : List Nat) (e : Error_State_t) (w1 : World),
      w.rx = "23-08-30SAT12:30:45".toList.map Char.toNat ++ rest ∧
        ReadDateTime_FromPC m w = .done e w1 ∧ w1.Date_Time_RTC.Hours = 12 := by
  rintro ⟨m, w, rest, e, w1, hrx, hrun, hH⟩
  have hlit : "23-08-30SAT12:30:45".toList.map Char.toNat
      = [50, 51, 45, 48, 56, 45, 51, 48, 83, 65, 84, 49, 50, 58, 51, 48, 58, 52, 53] := by
    decide
  rw [hlit] at hrx
  by_cases hcf : m.CALENDER_FORMAT ≤ w.rx.length
  · have h := ReadDateTime_FromPC_run m w (w.rx.take m.CALENDER_FORMAT)
      (w.rx.drop m.CALENDER_FORMAT) (by rw [List.length_take]; omega)
      (List.take_append_drop _ _).symm
    rw [h] at hrun
    injection hrun with _ hw
    rw [← hw] at hH
    have h15 := received_take_getD w.rx m.CALENDER_FORMAT 15
    have h16 := received_take_getD w.rx m.CALENDER_FORMAT 16
    have hH2 : twoDigits ZERO_ASCII
        ((received (w.rx.take m.CALENDER_FORMAT)).getD 15 0)
        ((received (w.rx.take m.CALENDER_FORMAT)).getD 16 0) = 12 := hH
    rw [h15, h16, hrx] at hH2
    by_cases c15 : 15 < m.CALENDER_FORMAT <;> by_cases c16 : 16 < m.CALENDER_FORMAT <;>
      simp [c15, c16] at hH2 <;> revert hH2 <;> decide
  · rw [ReadDateTime_FromPC_short m w (by omega)] at hrun
    cases hrun

/-! ## Transmissions started in one pass -/

/-- With slots 1 and 3 both due, one `CompTime` pass calls `SPI_Transmit_IT`
twice on the shared buffer `AlarmName`, for slot 1 and then for slot 3, with no
step in between that waits for the first completion callback. -/
theorem CompTime_two_transmissions_in_one_pass :
    ((CompTime sampleMacros ⟨0, 30, 7, .DS1307_SATURDAY, 8, 23, 30⟩
        { startWorld [] with
          AlarmTime := [[7, 30, 0], [255, 255, 255], [7, 30, 0], [255, 255, 255],
            [255, 255, 255]] }).spi.map (fun f => (f.data.take 2, f.callback)))
      = [([3, 1], .SPI1_ISR), ([3, 3], .SPI1_ISR)] := by
  decide

/-! ## The array writes of `SetAlarm` -/

/-- The logged receive loop runs as the receive loop does. -/
theorem receiveLoopLog_fst (n : Nat) : ∀ (fuel c : Nat) (Arr : List Nat) (w : World),
    (receiveLoopLog n fuel c Arr w).1 = receiveLoop n fuel c Arr w := by
  intro fuel
  induction fuel with
  | zero => intro c Arr w; rfl
  | succ fuel ih =>
    intro c Arr w
    by_cases hc : c < n
    · cases hrx : w.rx with
      | nil => simp [receiveLoopLog, receiveLoop, hc, UART_u16Receive, hrx]
      | cons x xs =>
        simp only [receiveLoopLog, receiveLoop, hc, if_true, UART_u16Receive, hrx]
        exact ih _ _ _
    · simp [receiveLoopLog, receiveLoop, hc]

/-- The receive loop stores only at indexes from the counter up to the bound. -/
theorem receiveLoopLog_indexes (n : Nat) : ∀ (fuel c : Nat) (Arr : List Nat) (w : World),
    ∀ i ∈ (receiveLoopLog n fuel c Arr w).2, c ≤ i ∧ i < n := by
  intro fuel
  induction fuel with
  | zero => intro c Arr w i hi; simp [receiveLoopLog] at hi
  | succ fuel ih =>
    intro c Arr w i hi
    by_cases hc : c < n
    · cases hrx : w.rx with
      | nil => simp [receiveLoopLog, hc, UART_u16Receive, hrx] at hi
      | cons x xs =>
        simp only [receiveLoopLog, hc, if_true, UART_u16Receive, hrx, List.mem_cons] at hi
        rcases hi with rfl | hi
        · exact ⟨le_refl _, hc⟩
        · have := ih _ _ _ i hi
          exact ⟨by omega, this.2⟩
    · simp [receiveLoopLog, hc] at hi

/-- The logged `CalcAlarm` runs as `CalcAlarm` does. -/
theorem CalcAlarmLog_fst (AlarmNumber : Nat) (w : World) :
    (CalcAlarmLog AlarmNumber w).1 = CalcAlarm AlarmNumber w := by
  have h := receiveLoopLog_fst 8 8 0 (List.replicate 8 0) w
  unfold CalcAlarmLog CalcAlarm
  simp only []
  rw [← h]
  cases (receiveLoopLog 8 8 0 (List.replicate 8 0) w).1 <;> rfl

/-- The logged label loop runs as the label loop does. -/
theorem SetAlarm_nameLoopLog_fst : ∀ (fuel : Nat) (w : World),
    (SetAlarm.nameLoopLog fuel w).1 = SetAlarm.nameLoop fuel w := by
  intro fuel
  induction fuel with
  | zero => intro w; rfl
  | succ fuel ih =>
    intro w
    by_cases hc : w.AlarmNameCounter < 30
    · cases hrx : w.rx with
      | nil => simp [SetAlarm.nameLoopLog, SetAlarm.nameLoop, hc, UART_u16Receive, hrx]
      | cons x xs =>
        simp only [SetAlarm.nameLoopLog, SetAlarm.nameLoop, hc, if_true, UART_u16Receive, hrx]
        split
        · rfl
        · exact ih _
    · simp [SetAlarm.nameLoopLog, SetAlarm.nameLoop, hc]

/-- The label loop stores only into `AlarmName`, at indexes from the counter up
to 29, and makes at most as many stores as it has iterations. -/
theorem SetAlarm_nameLoopLog_indexes : ∀ (fuel : Nat) (w : World),
    (SetAlarm.nameLoopLog fuel w).2.length ≤ fuel ∧
      ∀ e ∈ (SetAlarm.nameLoopLog fuel w).2,
        ∃ i, e = .storeAlarmName i ∧ w.AlarmNameCounter ≤ i ∧ i ≤ 29 := by
  intro fuel
  induction fuel with
  | zero => intro w; simp [SetAlarm.nameLoopLog]
  | succ fuel ih =>
    intro w
    by_cases hc : w.AlarmNameCounter < 30
    · cases hrx : w.rx with
      | nil => simp [SetAlarm.nameLoopLog, hc, UART_u16Receive, hrx]
      | cons x xs =>
        simp only [SetAlarm.nameLoopLog, hc, if_true, UART_u16Receive, hrx]
        split
        · refine ⟨by simp, ?_⟩
          intro e he
          simp only [List.mem_singleton] at he
          exact ⟨_, he, le_refl _, by omega⟩
        · have h := ih { w with
            rx := xs
            AlarmName := w.AlarmName.set w.AlarmNameCounter (x % 256)
            AlarmNameCounter := w.AlarmNameCounter + 1 }
          refine ⟨by simpa using h.1, ?_⟩
          intro e he
          simp only [List.mem_cons] at he
          rcases he with he | he
          · exact ⟨_, he, le_refl _, by omega⟩
          · obtain ⟨i, e1, e2, e3⟩ := h.2 e he
            exact ⟨i, e1, by simp at e2; omega, e3⟩
    · simp [SetAlarm.nameLoopLog, hc]

/-- The logged `SetAlarm.go` runs as `SetAlarm.go` does. -/
theorem SetAlarm_goLog_fst : ∀ (fuel : Nat) (w : World),
    (SetAlarm.goLog fuel w).1 = SetAlarm.go fuel w := by
  intro fuel
  induction fuel with
  | zero => intro w; rfl
  | succ fuel ih =>
    intro w
    cases hrx : w.rx with
    | nil => simp [SetAlarm.goLog, SetAlarm.go, UART_u16Receive, hrx]
    | cons x xs =>
      have hl := SetAlarm_nameLoopLog_fst 28 { w with rx := xs, AlarmNameCounter := 2 }
      simp only [SetAlarm.goLog, SetAlarm.go, UART_u16Receive, hrx]
      rw [← hl]
      cases (SetAlarm.nameLoopLog 28 { w with rx := xs, AlarmNameCounter := 2 }).1 with
      | blocked w2 => rfl
      | done u w2 =>
        simp only []
        split
        · exact CalcAlarmLog_fst _ _
        · exact ih _

/-- Every logged step of `CalcAlarm` called with `choice - 1`, for a choice byte
from `1` to `5`, is within bounds. -/
theorem CalcAlarmLog_inBounds (choice : Nat) (w : World) (h : choice > 48 ∧ choice < 54) :
    ∀ e ∈ (CalcAlarmLog (choice - 1) w).2, e.inBounds := by
  have hidx := receiveLoopLog_indexes 8 8 0 (List.replicate 8 0) w
  have hrow : 0 ≤ ((choice - 1 : Nat) : Int) - 48 ∧ ((choice - 1 : Nat) : Int) - 48 ≤ 4 := by
    omega
  intro e he
  unfold CalcAlarmLog at he
  simp only [] at he
  split at he
  · obtain ⟨i, hi, rfl⟩ := List.mem_map.mp he
    exact (hidx i hi).2
  · simp only [List.mem_append, List.mem_map, List.mem_cons, List.mem_singleton,
      List.not_mem_nil, or_false] at he
    rcases he with ⟨i, hi, rfl⟩ | rfl | rfl | rfl
    · exact (hidx i hi).2
    · exact ⟨hrow.1, hrow.2, by decide⟩
    · exact ⟨hrow.1, hrow.2, by decide⟩
    · exact ⟨hrow.1, hrow.2, by decide⟩

/-- Every logged step of `SetAlarm.go` is within bounds. -/
theorem SetAlarm_goLog_inBounds : ∀ (fuel : Nat) (w : World),
    ∀ e ∈ (SetAlarm.goLog fuel w).2, e.inBounds := by
  intro fuel
  induction fuel with
  | zero => intro w e he; simp [SetAlarm.goLog] at he
  | succ fuel ih =>
    intro w e he
    cases hrx : w.rx with
    | nil => simp [SetAlarm.goLog, UART_u16Receive, hrx] at he
    | cons x xs =>
      have hname := (SetAlarm_nameLoopLog_indexes 28
        { w with rx := xs, AlarmNameCounter := 2 }).2
      have hnameB : ∀ e ∈ (SetAlarm.nameLoopLog 28
          { w with rx := xs, AlarmNameCounter := 2 }).2, e.inBounds := by
        intro e he
        obtain ⟨i, rfl, h2, h29⟩ := hname e he
        exact ⟨h2, h29⟩
      simp only [SetAlarm.goLog, UART_u16Receive, hrx] at he
      split at he
      · exact hnameB e he
      · split at he
        · rename_i hch
          simp only [List.mem_append, List.mem_cons] at he
          rcases he with he | rfl | he
          · exact hnameB e he
          · have h49 : ['1', '2', '3', '4', '5'].map Char.toNat = [49, 50, 51, 52, 53] := by
              decide
            refine ⟨x % 256, ?_, rfl, by omega, by omega⟩
            rw [h49]
            simp only [List.mem_cons, List.mem_singleton, List.not_mem_nil, or_false]
            omega
          · exact CalcAlarmLog_inBounds (x % 256) _ hch e he
        · simp only [List.mem_append] at he
          rcases he with he | he
          · exact hnameB e he
          · exact ih _ e he

/-- The receive loop leaves `AlarmName` as it is. -/
theorem receiveLoop_AlarmName (n : Nat) : ∀ (fuel c : Nat) (Arr : List Nat) (w : World),
    (receiveLoop n fuel c Arr w).world.AlarmName = w.AlarmName := by
  intro fuel
  induction fuel with
  | zero => intro c Arr w; rfl
  | succ fuel ih =>
    intro c Arr w
    by_cases hc : c < n
    · cases hrx : w.rx with
      | nil => simp [receiveLoop, hc, UART_u16Receive, hrx, Run.world]
      | cons x xs =>
        simp only [receiveLoop, hc, if_true, UART_u16Receive, hrx]
        exact ih _ _ _
    · simp [receiveLoop, hc, Run.world]

/-- `CalcAlarm` leaves `AlarmName` as it is. -/
theorem CalcAlarm_AlarmName (AlarmNumber : Nat) (w : World) :
    (CalcAlarm AlarmNumber w).world.AlarmName = w.AlarmName := by
  have h := receiveLoop_AlarmName 8 8 0 (List.replicate 8 0) w
  unfold CalcAlarm
  cases hr : receiveLoop 8 8 0 (List.replicate 8 0) w with
  | blocked w1 => rw [hr] at h; exact h
  | done a w1 => rw [hr] at h; exact h

/-- A store at index `n` leaves the first `m ≤ n` elements as they are. -/
theorem take_set_of_le (a : Nat) (n m : Nat) (l : List Nat) (h : m ≤ n) :
    (l.set n a).take m = l.take m := by
  apply List.ext_getElem?
  intro i
  rw [List.getElem?_take, List.getElem?_take]
  split
  · rw [List.getElem?_set_ne (by omega)]
  · rfl

/-- The label loop started at an index of 2 or more leaves bytes 0 and 1 of
`AlarmName` as they are, and takes at most one word from the line per
iteration. -/
theorem SetAlarm_nameLoop_head : ∀ (fuel : Nat) (w : World), 2 ≤ w.AlarmNameCounter →
    (SetAlarm.nameLoop fuel w).world.AlarmName.take 2 = w.AlarmName.take 2 ∧
      w.rx.length ≤ (SetAlarm.nameLoop fuel w).world.rx.length + fuel := by
  intro fuel
  induction fuel with
  | zero => intro w _; simp [SetAlarm.nameLoop, Run.world]
  | succ fuel ih =>
    intro w h2
    by_cases hc : w.AlarmNameCounter < 30
    · cases hrx : w.rx with
      | nil => simp [SetAlarm.nameLoop, hc, UART_u16Receive, hrx, Run.world]
      | cons x xs =>
        have htake : (w.AlarmName.set w.AlarmNameCounter (x % 256)).take 2
            = w.AlarmName.take 2 := take_set_of_le _ _ _ _ h2
        simp only [SetAlarm.nameLoop, hc, if_true, UART_u16Receive, hrx]
        split
        · simp only [Run.world, htake, List.length_cons, true_and]
          omega
        · have h := ih { w with
            rx := xs
            AlarmName := w.AlarmName.set w.AlarmNameCounter (x % 256)
            AlarmNameCounter := w.AlarmNameCounter + 1 } (by simp; omega)
          simp only [htake] at h
          refine ⟨h.1, ?_⟩
          have := h.2
          simp only [List.length_cons] at this ⊢
          omega
    · simp [SetAlarm.nameLoop, hc, Run.world]

/-- `SetAlarm.go` leaves bytes 0 and 1 of `AlarmName` as they are. -/
theorem SetAlarm_go_head : ∀ (fuel : Nat) (w : World),
    (SetAlarm.go fuel w).world.AlarmName.take 2 = w.AlarmName.take 2 := by
  intro fuel
  induction fuel with
  | zero => intro w; rfl
  | succ fuel ih =>
    intro w
    cases hrx : w.rx with
    | nil => simp [SetAlarm.go, UART_u16Receive, hrx, Run.world]
    | cons x xs =>
      have hl := (SetAlarm_nameLoop_head 28 { w with rx := xs, AlarmNameCounter := 2 }
        (le_refl _)).1
      simp only [SetAlarm.go, UART_u16Receive, hrx]
      cases hloop : SetAlarm.nameLoop 28 { w with rx := xs, AlarmNameCounter := 2 } with
      | blocked w2 =>
        rw [hloop] at hl
        exact hl
      | done u w2 =>
        rw [hloop] at hl
        simp only [Run.world] at hl
        simp only []
        split
        · rw [CalcAlarm_AlarmName]
          exact hl
        · rw [ih w2]
          exact hl

/-- C21: for every state and every input stream on the line, every array store
made by `SetAlarm` and by the `CalcAlarm` call it makes is in bounds.  `CalcAlarm`
is reached only with `choice - 1` for a choice byte in `1..5`, and the row index
`choice - 1 - 48` it computes lies in `0..4` (columns 0 to 2, `RecTemp` indexes
below 8); label bytes are stored only at `AlarmName` indexes `2..29`, at most 28
words being read for a label; so bytes 0 and 1 of `AlarmName`, the command byte
and the slot-index byte, are never written by `SetAlarm`. -/
theorem SetAlarm_writes_in_bounds (w : World) :
    (SetAlarmLog w).1 = SetAlarm w ∧
      (∀ e ∈ (SetAlarmLog w).2, e.inBounds) ∧
      (∀ w0 : World,
        (SetAlarm.nameLoopLog 28 { w0 with AlarmNameCounter := 2 }).1
            = SetAlarm.nameLoop 28 { w0 with AlarmNameCounter := 2 } ∧
          (SetAlarm.nameLoopLog 28 { w0 with AlarmNameCounter := 2 }).2.length ≤ 28 ∧
          w0.rx.length
            ≤ (SetAlarm.nameLoop 28 { w0 with AlarmNameCounter := 2 }).world.rx.length + 28) ∧
      (SetAlarm w).world.AlarmName.take 2 = w.AlarmName.take 2 := by
  refine ⟨SetAlarm_goLog_fst _ w, SetAlarm_goLog_inBounds _ w, ?_, SetAlarm_go_head _ w⟩
  intro w0
  exact ⟨SetAlarm_nameLoopLog_fst 28 _,
    (SetAlarm_nameLoopLog_indexes 28 { w0 with AlarmNameCounter := 2 }).1,
    (SetAlarm_nameLoop_head 28 { w0 with AlarmNameCounter := 2 } (le_refl _)).2⟩

/-- The log of one run: choice `6` with label `A` is rejected, then choice `2`
with label `B` and the text `07:30:00` is stored in row 1. -/
theorem SetAlarmLog_sample :
    (SetAlarmLog (startWorld [54, 65, 13, 50, 66, 13, 48, 55, 58, 51, 48, 58, 48, 48])).2
      = [.storeAlarmName 2, .storeAlarmName 3, .storeAlarmName 2, .storeAlarmName 3,
          .callCalcAlarm 49, .storeRecTemp 0, .storeRecTemp 1, .storeRecTemp 2,
          .storeRecTemp 3, .storeRecTemp 4, .storeRecTemp 5, .storeRecTemp 6,
          .storeRecTemp 7, .storeAlarmTime 1 0, .storeAlarmTime 1 1,
          .storeAlarmTime 1 2] := by
  decide

end Service
